import Mathlib

/-! # Charset conversion utilities of `util/stringutil.c`

A shallow embedding of the conversion routines and wide string utilities of
`stringutil.c` (MySQL Connector/ODBC) and theorems about them.

Conventions of the embedding.

* Pointers into a buffer are natural-number offsets from the start of the
  buffer.  Read-only memory is a function `Mem` from offsets to values.
* A routine that stores into a caller-visible buffer returns the list of its
  stores `(offset, value)` in program order; `load` reads a buffer back.
* `uint32` / `uint` variables are naturals reduced modulo `2 ^ 32` at each
  assignment; the `int` results of the charset handlers are integers.
* `SQLINTEGER` lengths and buffer sizes are integers without wrap-around
  (buffers are taken to be shorter than `2 ^ 31` units), except where a
  definition says that it converts.
* Loops that the C text does not bound (`while (1)`, `goto`) run on fuel and
  return `none` when the fuel is exhausted.
* A string argument is the list of the units from the pointer on (terminator
  and what follows it included); memory beyond the list reads as zero.
-/

namespace StringUtil

/-! ## Basic types -/

/-- Read-only memory seen through a pointer: offset to stored value. -/
abbrev Mem := Nat → Nat

/-- Conversion of an integer to `uint32`. -/
def toU32 (x : Int) : Nat := (x % 4294967296).toNat

/-- Conversion of an integer to `int` (32 bits, signed). -/
def toS32 (x : Int) : Int := (x + 2147483648) % 4294967296 - 2147483648

/-- Modelled from the spec: `MY_CS_ILSEQ` of MySQL's `m_ctype.h`, which is not
part of the sources; the decoder's "illegal sequence" code, 0. -/
def MY_CS_ILSEQ : Int := 0

/-- Modelled from the spec: `MY_CS_ILUNI` of MySQL's `m_ctype.h`, which is not
part of the sources; the encoder's "cannot encode" code, 0. -/
def MY_CS_ILUNI : Int := 0

/-- Modelled from the spec: `MY_CS_TOOSMALL` of MySQL's `m_ctype.h`, which is
not part of the sources; "not enough bytes", -101. -/
def MY_CS_TOOSMALL : Int := -101

/-- The charset capability `CHARSET_INFO`, with the two handlers of
`cs->cset` that `copy_and_convert` calls.

* `mb_wc mem s e` decodes one character of the source memory `mem` at offset
  `s`, with end offset `e`; it gives the `int` result and the value it leaves
  in `wc`.
* `wc_mb wc s e` encodes `wc` at destination offset `s` with end offset `e`;
  it gives the `int` result and the bytes it stored at `s, s+1, ...`. -/
structure CHARSET_INFO where
  number : Nat
  mbminlen : Nat
  mbmaxlen : Nat
  mb_wc : Mem → Nat → Nat → Int × Nat
  wc_mb : Nat → Nat → Nat → Int × List Nat

/-- The stores made by writing the values `vs` at consecutive offsets from `base`. -/
def storesAt (base : Nat) : List Nat → List (Nat × Nat)
  | [] => []
  | v :: vs => (base, v) :: storesAt (base + 1) vs

/-- Read offset `i` of a buffer with initial contents `init` after the stores
`ss` (oldest first). -/
def load (init : Mem) (ss : List (Nat × Nat)) (i : Nat) : Nat :=
  match ss.reverse.find? (fun p => p.1 == i) with
  | some p => p.2
  | none => init i

/-! ## `copy_and_convert` -/

/-- The local variables of `copy_and_convert` that change in the loop:
`from` and `to` as offsets from their initial values, the two out-parameters,
`error_count`, and the stores made into `to` so far. -/
structure ConvState where
  from_pos : Nat
  to_pos : Nat
  used_bytes : Nat
  used_chars : Nat
  error_count : Nat
  stores : List (Nat × Nat)
  deriving DecidableEq, Repr

/-- The two points of `copy_and_convert` that control jumps to: the head of
`while (1)` and the label `outp`, where `wc` and `from_cnvres` are live. -/
inductive Label where
  | loop_head
  | outp (wc : Nat) (from_cnvres : Int)

/-- The loop of `copy_and_convert` (lines 427-464), one unit of fuel per jump
to `loop_head` or `outp`.  `some st` is the state at the `break`. -/
def conv_run (to_cs from_cs : CHARSET_INFO) (from_mem : Mem) (from_end to_end : Nat) :
    Nat → Label → ConvState → Option ConvState
  | 0, _, _ => none
  | fuel + 1, Label.loop_head, st =>
    let r := from_cs.mb_wc from_mem st.from_pos from_end
    if 0 < r.1 then
      conv_run to_cs from_cs from_mem from_end to_end fuel (Label.outp r.2 r.1)
        { st with from_pos := st.from_pos + r.1.toNat }
    else if r.1 = MY_CS_ILSEQ then
      conv_run to_cs from_cs from_mem from_end to_end fuel (Label.outp 63 r.1)
        { st with error_count := (st.error_count + 1) % 4294967296,
                  from_pos := st.from_pos + 1 }
    else if MY_CS_TOOSMALL < r.1 then
      conv_run to_cs from_cs from_mem from_end to_end fuel (Label.outp 63 r.1)
        { st with error_count := (st.error_count + 1) % 4294967296,
                  from_pos := st.from_pos + (-r.1).toNat }
    else
      some st
  | fuel + 1, Label.outp wc from_cnvres, st =>
    let r := to_cs.wc_mb wc st.to_pos to_end
    let st1 : ConvState := { st with stores := st.stores ++ storesAt st.to_pos r.2 }
    if 0 < r.1 then
      conv_run to_cs from_cs from_mem from_end to_end fuel Label.loop_head
        { st1 with to_pos := st.to_pos + r.1.toNat,
                   used_bytes := toU32 (st.used_bytes + from_cnvres),
                   used_chars := (st.used_chars + 1) % 4294967296 }
    else if r.1 = MY_CS_ILUNI ∧ wc ≠ 63 then
      conv_run to_cs from_cs from_mem from_end to_end fuel (Label.outp 63 from_cnvres)
        { st1 with error_count := (st.error_count + 1) % 4294967296 }
    else
      some st1

/-- What `copy_and_convert` leaves behind: the returned length, the three
out-parameters, and the stores into `to` (offsets from `to`). -/
structure ConvResult where
  ret : Nat
  used_bytes : Nat
  used_chars : Nat
  errors : Nat
  stores : List (Nat × Nat)
  deriving DecidableEq, Repr

/-- The state at `*used_bytes= *used_chars= 0` (line 425). -/
def conv_init : ConvState :=
  { from_pos := 0, to_pos := 0, used_bytes := 0, used_chars := 0, error_count := 0, stores := [] }

/-- The function `copy_and_convert(to, to_length, to_cs, from, from_length, from_cs,
used_bytes, used_chars, errors)`; `errors` is the value of `*errors` on entry. -/
def copy_and_convert (fuel : Nat) (to_length : Nat) (to_cs : CHARSET_INFO)
    (from_mem : Mem) (from_length : Nat) (from_cs : CHARSET_INFO) (errors : Nat) :
    Option ConvResult :=
  match conv_run to_cs from_cs from_mem from_length to_length fuel Label.loop_head conv_init with
  | none => none
  | some st =>
    some { ret := st.to_pos % 4294967296,
           used_bytes := st.used_bytes,
           used_chars := st.used_chars,
           errors := (errors + st.error_count) % 4294967296,
           stores := st.stores }

/-! ## Example charsets -/

/-- Memory holding the list `l`, zero beyond it. -/
def memOf (l : List Nat) : Mem := fun i => l.getD i 0

/-- Example decoder: UTF-8 of up to three bytes, with the result codes of
MySQL's `my_utf8_uni`. -/
def ex_utf8_mb_wc (mem : Mem) (s e : Nat) : Int × Nat :=
  if e ≤ s then (MY_CS_TOOSMALL, 0)
  else if mem s < 128 then (1, mem s)
  else if mem s < 194 then (MY_CS_ILSEQ, 0)
  else if mem s < 224 then
    if e < s + 2 then (-102, 0)
    else if ¬ (128 ≤ mem (s + 1) ∧ mem (s + 1) < 192) then (MY_CS_ILSEQ, 0)
    else (2, (mem s % 32) * 64 + mem (s + 1) % 64)
  else if mem s < 240 then
    if e < s + 3 then (-103, 0)
    else if ¬ (128 ≤ mem (s + 1) ∧ mem (s + 1) < 192 ∧ 128 ≤ mem (s + 2) ∧ mem (s + 2) < 192
        ∧ (225 ≤ mem s ∨ 160 ≤ mem (s + 1))) then (MY_CS_ILSEQ, 0)
    else (3, (mem s % 16) * 4096 + (mem (s + 1) % 64) * 64 + mem (s + 2) % 64)
  else (MY_CS_ILSEQ, 0)

/-- Example encoder: UTF-8 of up to three bytes, with the result codes of
MySQL's `my_uni_utf8`. -/
def ex_utf8_wc_mb (wc s e : Nat) : Int × List Nat :=
  if e ≤ s then (MY_CS_TOOSMALL, [])
  else if wc < 128 then (1, [wc])
  else if wc < 2048 then
    if e < s + 2 then (-102, []) else (2, [192 + wc / 64, 128 + wc % 64])
  else if wc < 65536 then
    if e < s + 3 then (-103, [])
    else (3, [224 + wc / 4096, 128 + (wc / 64) % 64, 128 + wc % 64])
  else (MY_CS_ILUNI, [])

/-- Example charset: UTF-8 (charset number 33). -/
def ex_utf8 : CHARSET_INFO :=
  { number := 33, mbminlen := 1, mbmaxlen := 3, mb_wc := ex_utf8_mb_wc, wc_mb := ex_utf8_wc_mb }

/-- Example decoder of a single-byte charset defined on 0..127 only: a byte
above 127 is a valid one-byte sequence without Unicode mapping (result -1, as
MySQL's 8-bit decoders give for holes of the table). -/
def ex_ascii_mb_wc (mem : Mem) (s e : Nat) : Int × Nat :=
  if e ≤ s then (MY_CS_TOOSMALL, 0)
  else if mem s < 128 then (1, mem s)
  else (-1, 0)

/-- Example encoder of a single-byte charset defined on 0..127 only. -/
def ex_ascii_wc_mb (wc s e : Nat) : Int × List Nat :=
  if e ≤ s then (MY_CS_TOOSMALL, [])
  else if wc < 128 then (1, [wc])
  else (MY_CS_ILUNI, [])

/-- Example charset: a 7-bit single-byte charset (charset number 11). -/
def ex_ascii : CHARSET_INFO :=
  { number := 11, mbminlen := 1, mbmaxlen := 1, mb_wc := ex_ascii_mb_wc, wc_mb := ex_ascii_wc_mb }

/-! ## Properties of charsets used as hypotheses -/

/-- The encoder of `cs` never stores at or beyond the end offset it is given,
and a positive result is the number of bytes it stored. -/
def EncoderRespectsEnd (cs : CHARSET_INFO) : Prop :=
  ∀ wc s e : Nat,
    ((cs.wc_mb wc s e).2 = [] ∨ s + (cs.wc_mb wc s e).2.length ≤ e) ∧
    (0 < (cs.wc_mb wc s e).1 → (cs.wc_mb wc s e).1 = ((cs.wc_mb wc s e).2.length : Int))

/-- Fuel that one pass from the given label needs at most. -/
def Label.weight : Label → Nat
  | Label.loop_head => 3
  | Label.outp wc _ => if wc = 63 then 1 else 2

/-- From offset `pos` the decoder of `from_cs` decodes the characters `cs` one
after the other: each `c` is non-empty, and at its offset the decoder reports
`c.length` bytes and the code point `dec c`. -/
def DecodesAs (from_cs : CHARSET_INFO) (mem : Mem) (e : Nat) (dec : List Nat → Nat) :
    Nat → List (List Nat) → Prop
  | _, [] => True
  | pos, c :: cs =>
    c ≠ [] ∧ from_cs.mb_wc mem pos e = ((c.length : Int), dec c) ∧
      DecodesAs from_cs mem e dec (pos + c.length) cs

/-- The encoder of `to_cs` can encode `wc`: wherever the bytes `enc wc` fit
before the end offset, it stores exactly them and returns their number. -/
def EncodesAs (to_cs : CHARSET_INFO) (enc : Nat → List Nat) (wc : Nat) : Prop :=
  enc wc ≠ [] ∧
    ∀ s e : Nat, s + (enc wc).length ≤ e → to_cs.wc_mb wc s e = (((enc wc).length : Int), enc wc)

instance decidableDecodesAs (from_cs : CHARSET_INFO) (mem : Mem) (e : Nat) (dec : List Nat → Nat) :
    ∀ (pos : Nat) (cs : List (List Nat)), Decidable (DecodesAs from_cs mem e dec pos cs)
  | _, [] => isTrue trivial
  | pos, c :: cs =>
    have := decidableDecodesAs from_cs mem e dec (pos + c.length) cs
    inferInstanceAs (Decidable (c ≠ [] ∧ from_cs.mb_wc mem pos e = ((c.length : Int), dec c) ∧
      DecodesAs from_cs mem e dec (pos + c.length) cs))

/-- Example: the UTF-8 encoding of a code point below 2048, as a function. -/
def ex_utf8_enc (wc : Nat) : List Nat :=
  if wc < 128 then [wc] else [192 + wc / 64, 128 + wc % 64]

/-- Example: the code point of a UTF-8 sequence of one or two bytes. -/
def ex_utf8_dec (c : List Nat) : Nat :=
  if c.length = 1 then c.getD 0 0 else (c.getD 0 0 % 32) * 64 + c.getD 1 0 % 64

/-! ## The environment of the bridge functions -/

/-- Ways in which a call does not return a value. -/
inductive Trap where
  | out_of_fuel
  | null_deref
  | div_by_zero
  | out_of_bounds
  deriving DecidableEq, Repr

deriving instance DecidableEq for Except

/-- Modelled from the spec: the length sentinel `SQL_NTS` ("null-terminated;
compute length first"), defined in the ODBC headers, which are not part of the
sources; its value there is -3. -/
def SQL_NTS : Int := -3

/-- Modelled from the spec: `MAX_BYTES_PER_UTF8_CP` of `stringutil.h`, which is
not part of the sources; the fixed 4-byte bound of a UTF-8 character. -/
def MAX_BYTES_PER_UTF8_CP : Nat := 4

/-- What `stringutil.c` takes from outside the file.

* `sizeof_SQLWCHAR`: the build's width of a wide unit in bytes (2 or 4);
* `utf8_charset_info`: the global of line 33, once set;
* `is_utf8_charset`: the header's test on a charset number;
* the Unicode codec of section 4.1 of the specification, declared in the
  header: `utf32toutf8 u` gives the bytes stored (their number is the value
  returned), `utf8toutf32 mem pos` and `utf16toutf32 mem pos` give the value
  returned (units consumed) and the code point stored, `utf32toutf16 u` gives
  the units stored (their number is the value returned);
* `my_malloc k`: whether the `k`-th allocation request of the call succeeds;
* `heap`: the contents of freshly allocated memory. -/
structure Env where
  sizeof_SQLWCHAR : Nat
  utf8_charset_info : CHARSET_INFO
  is_utf8_charset : Nat → Bool
  utf32toutf8 : Nat → List Nat
  utf8toutf32 : Mem → Nat → Nat × Nat
  utf16toutf32 : Mem → Nat → Nat × Nat
  utf32toutf16 : Nat → List Nat
  my_malloc : Nat → Bool
  heap : Mem

/-- The loop of `sqlwcharlen` and of `strlen` over the units from the pointer on. -/
def count_to_terminator : List Nat → Nat
  | [] => 0
  | c :: cs => if c ≠ 0 then count_to_terminator cs + 1 else 0

/-- The function `sqlwcharlen(wstr)`: the number of units before the terminator, 0 for `NULL`. -/
def sqlwcharlen : Option (List Nat) → Nat
  | none => 0
  | some w => count_to_terminator w

/-- Stores relative to `out + base` as stores relative to `out`. -/
def shiftStores (base : Nat) (ss : List (Nat × Nat)) : List (Nat × Nat) :=
  ss.map (fun p => (base + p.1, p.2))

/-! ## `sqlwchar_as_sqlchar_buf` -/

/-- The variables of the wide-to-charset loop: `str` as an offset, `i`,
`*errors`, and the stores made into `out`. -/
structure WideState where
  str : Nat
  i : Nat
  errors : Nat
  stores : List (Nat × Nat)
  deriving DecidableEq, Repr

/-- The loop `for (...; str < str_end; )` of lines 346-362 (the same text
stands at lines 162-178 and 366-382): one wide character is turned into UTF-8
in the scratch buffer `u8` and `copy_and_convert` appends it to `out + i` with
capacity `out_bytes - i` converted to `uint32`.  `fuel` is the fuel given to
each `copy_and_convert`; the loop itself runs on the next argument. -/
def wide_loop (env : Env) (fuel : Nat) (charset_info : CHARSET_INFO) (out_bytes : Int)
    (mem : Mem) (str_end : Int) : Nat → WideState → Except Trap WideState
  | 0, _ => Except.error Trap.out_of_fuel
  | n + 1, st =>
    if (st.str : Int) < str_end then
      let step : Nat × List Nat :=
        if env.sizeof_SQLWCHAR = 4 then (1, env.utf32toutf8 (mem st.str))
        else ((env.utf16toutf32 mem st.str).1, env.utf32toutf8 (env.utf16toutf32 mem st.str).2)
      match copy_and_convert fuel (toU32 (out_bytes - st.i)) charset_info (memOf step.2)
          step.2.length env.utf8_charset_info st.errors with
      | none => Except.error Trap.out_of_fuel
      | some r =>
        wide_loop env fuel charset_info out_bytes mem str_end n
          { str := st.str + step.1, i := st.i + r.ret, errors := r.errors,
            stores := st.stores ++ shiftStores st.i r.stores }
    else
      Except.ok st

/-- What `sqlwchar_as_sqlchar_buf` leaves behind: the value returned, `*errors`
and the stores made into `out`. -/
structure BufResult where
  ret : Int
  errors : Nat
  stores : List (Nat × Nat)
  deriving DecidableEq, Repr

/-- The function `sqlwchar_as_sqlchar_buf(charset_info, out, out_bytes, str, len, errors)`
(lines 328-385). -/
def sqlwchar_as_sqlchar_buf (env : Env) (fuel : Nat) (charset_info : CHARSET_INFO)
    (out_bytes : Int) (str : Option (List Nat)) (len : Int) : Except Trap BufResult :=
  let len1 : Int := if len = SQL_NTS then (sqlwcharlen str : Int) else len
  match str with
  | none => Except.ok { ret := 0, errors := 0, stores := [] }
  | some s =>
    if len1 = 0 then Except.ok { ret := 0, errors := 0, stores := [] }
    else
      match wide_loop env fuel charset_info out_bytes (memOf s) len1 fuel
          { str := 0, i := 0, errors := 0, stores := [] } with
      | Except.error t => Except.error t
      | Except.ok st1 =>
        match wide_loop env fuel charset_info out_bytes (memOf s) len1 fuel
            { str := st1.str, i := 0, errors := st1.errors,
              stores := st1.stores ++ [(st1.i, 0)] } with
        | Except.error t => Except.error t
        | Except.ok st2 => Except.ok { ret := st2.i, errors := st2.errors, stores := st2.stores }

/-! ## `utf8_as_sqlwchar` -/

/-- Conversion of an integer to `SQLSMALLINT` (16 bits, signed). -/
def toS16 (x : Int) : Int := (x + 32768) % 65536 - 32768

/-- The loop of `utf8_as_sqlwchar` (lines 256-266) on `i`, `pos` (an offset
from `out`) and the stores made into `out`. -/
def utf8_as_sqlwchar_loop (env : Env) (out_max : Int) (in_mem : Mem) (in_len : Int) :
    Nat → Nat → Nat → List (Nat × Nat) → Except Trap (Nat × List (Nat × Nat))
  | 0, _, _, _ => Except.error Trap.out_of_fuel
  | n + 1, i, pos, ss =>
    if (i : Int) < in_len ∧ (pos : Int) < out_max then
      if env.sizeof_SQLWCHAR = 4 then
        utf8_as_sqlwchar_loop env out_max in_mem in_len n (i + (env.utf8toutf32 in_mem i).1)
          (pos + 1) (ss ++ [(pos, (env.utf8toutf32 in_mem i).2)])
      else
        utf8_as_sqlwchar_loop env out_max in_mem in_len n (i + (env.utf8toutf32 in_mem i).1)
          (pos + (env.utf32toutf16 (env.utf8toutf32 in_mem i).2).length)
          (ss ++ storesAt pos (env.utf32toutf16 (env.utf8toutf32 in_mem i).2))
    else
      Except.ok (pos, ss)

/-- What `utf8_as_sqlwchar` leaves behind: the value returned and the stores
made into `out`. -/
structure WideBufResult where
  ret : Int
  stores : List (Nat × Nat)
  deriving DecidableEq, Repr

/-- The function `utf8_as_sqlwchar(out, out_max, in, in_len)` (lines 250-271), for a
non-null `out`, so that `pos` is non-null at line 268. -/
def utf8_as_sqlwchar (env : Env) (fuel : Nat) (out_max : Int) (in_ : List Nat) (in_len : Int) :
    Except Trap WideBufResult :=
  match utf8_as_sqlwchar_loop env out_max (memOf in_) in_len fuel 0 0 [] with
  | Except.error t => Except.error t
  | Except.ok (pos, ss) => Except.ok { ret := toS16 pos, stores := ss ++ [(pos, 0)] }

/-! ## The allocating bridge functions -/

/-- What an allocating bridge function leaves behind: the pointer returned
(`none` for `NULL`, else the stores made into the new buffer) and `*len`. -/
structure AllocResult where
  out : Option (List (Nat × Nat))
  len : Int
  deriving DecidableEq, Repr

/-- The statement `if (*len == SQL_NTS) *len= strlen((char *)str);` (lines 55-56 and
293-294): `strlen` reads through `str`. -/
def strlen_if_nts (str : Option (List Nat)) (len : Int) : Except Trap Int :=
  if len = SQL_NTS then
    match str with
    | none => Except.error Trap.null_deref
    | some s => Except.ok (count_to_terminator s : Int)
  else Except.ok len

/-- The loop of lines 95-107 on `pos` (an offset from `str`), `i` and the
stores made into `out`. -/
def sqlchar_as_sqlwchar_loop (env : Env) (mem : Mem) (str_end : Int) :
    Nat → Nat → Nat → List (Nat × Nat) → Except Trap (Nat × List (Nat × Nat))
  | 0, _, _, _ => Except.error Trap.out_of_fuel
  | n + 1, pos, i, ss =>
    if mem pos ≠ 0 ∧ (pos : Int) < str_end then
      if env.sizeof_SQLWCHAR = 4 then
        sqlchar_as_sqlwchar_loop env mem str_end n (pos + (env.utf8toutf32 mem pos).1) (i + 1)
          (ss ++ [(i, (env.utf8toutf32 mem pos).2)])
      else
        sqlchar_as_sqlwchar_loop env mem str_end n (pos + (env.utf8toutf32 mem pos).1)
          (i + (env.utf32toutf16 (env.utf8toutf32 mem pos).2).length)
          (ss ++ storesAt i (env.utf32toutf16 (env.utf8toutf32 mem pos).2))
    else
      Except.ok (i, ss)

/-- Lines 84-115 of `sqlchar_as_sqlwchar`, where `str` (memory `mem`) and
`*len` hold UTF-8: the request for `out` of `(*len + 1) * sizeof(SQLWCHAR)`
bytes, which is the `k`-th request of the call, the loop, `*len= i` and
`out[i]= 0`. -/
def sqlchar_as_sqlwchar_out (env : Env) (fuel : Nat) (mem : Mem) (len : Int) (errors : Nat)
    (k : Nat) : Except Trap (AllocResult × Nat) :=
  if env.my_malloc k = false then Except.ok ({ out := none, len := -1 }, errors)
  else
    match sqlchar_as_sqlwchar_loop env mem len fuel 0 0 [] with
    | Except.error t => Except.error t
    | Except.ok (i, ss) => Except.ok ({ out := some (ss ++ [(i, 0)]), len := i }, errors)

/-- The size `u8_max` of lines 67-68, computed in `uint`. -/
def sqlchar_as_sqlwchar_u8_max (env : Env) (charset_info : CHARSET_INFO) (len : Int) : Nat :=
  (toU32 len / charset_info.mbminlen * env.utf8_charset_info.mbmaxlen + 1) % 4294967296

/-- The function `sqlchar_as_sqlwchar(charset_info, str, len, errors)` (lines 47-116); the
result is the buffer with `*len`, and `*errors`. -/
def sqlchar_as_sqlwchar (env : Env) (fuel : Nat) (charset_info : CHARSET_INFO)
    (str : Option (List Nat)) (len : Int) (errors : Nat) : Except Trap (AllocResult × Nat) :=
  match strlen_if_nts str len with
  | Except.error t => Except.error t
  | Except.ok len1 =>
    match str with
    | none => Except.ok ({ out := none, len := 0 }, errors)
    | some s =>
      if len1 = 0 then Except.ok ({ out := none, len := 0 }, errors)
      else if env.is_utf8_charset charset_info.number = false then
        if charset_info.mbminlen = 0 then Except.error Trap.div_by_zero
        else if env.my_malloc 0 = false then Except.ok ({ out := none, len := -1 }, errors)
        else
          match copy_and_convert fuel (sqlchar_as_sqlwchar_u8_max env charset_info len1)
              env.utf8_charset_info (memOf s) (toU32 len1) charset_info errors with
          | none => Except.error Trap.out_of_fuel
          | some r => sqlchar_as_sqlwchar_out env fuel (load env.heap r.stores) r.ret r.errors 1
      else sqlchar_as_sqlwchar_out env fuel (memOf s) len1 errors 0

/-- The loops of lines 219-232 of `sqlwchar_as_utf8` on `str` (an offset), `i`
and the stores made into `u8`. -/
def sqlwchar_as_utf8_loop (env : Env) (mem : Mem) (str_end : Int) :
    Nat → Nat → Nat → List (Nat × Nat) → Except Trap (Nat × List (Nat × Nat))
  | 0, _, _, _ => Except.error Trap.out_of_fuel
  | n + 1, str, i, ss =>
    if (str : Int) < str_end then
      if env.sizeof_SQLWCHAR = 4 then
        sqlwchar_as_utf8_loop env mem str_end n (str + 1)
          (i + (env.utf32toutf8 (mem str)).length)
          (ss ++ storesAt i (env.utf32toutf8 (mem str)))
      else
        sqlwchar_as_utf8_loop env mem str_end n (str + (env.utf16toutf32 mem str).1)
          (i + (env.utf32toutf8 (env.utf16toutf32 mem str).2).length)
          (ss ++ storesAt i (env.utf32toutf8 (env.utf16toutf32 mem str).2))
    else
      Except.ok (i, ss)

/-- The function `sqlwchar_as_utf8(str, len)` (lines 195-237); the request is for
`MAX_BYTES_PER_UTF8_CP * *len + 1` bytes. -/
def sqlwchar_as_utf8 (env : Env) (fuel : Nat) (str : Option (List Nat)) (len : Int) :
    Except Trap AllocResult :=
  let len1 : Int := if len = SQL_NTS then (sqlwcharlen str : Int) else len
  match str with
  | none => Except.ok { out := none, len := 0 }
  | some s =>
    if len1 = 0 then Except.ok { out := none, len := 0 }
    else if env.my_malloc 0 = false then Except.ok { out := none, len := -1 }
    else
      match sqlwchar_as_utf8_loop env (memOf s) len1 fuel 0 0 [] with
      | Except.error t => Except.error t
      | Except.ok (i, ss) => Except.ok { out := some (ss ++ [(i, 0)]), len := i }

/-- The size `out_bytes` of line 152 that `sqlwchar_as_sqlchar` requests for
`out`: `*len * charset_info->mbmaxlen * sizeof(SQLCHAR) + 1`. -/
def sqlwchar_as_sqlchar_out_bytes (charset_info : CHARSET_INFO) (len : Int) : Int :=
  len * charset_info.mbmaxlen + 1

/-- The function `sqlwchar_as_sqlchar(charset_info, str, len, errors)` (lines 130-183); the
result is the buffer with `*len`, and `*errors`, which line 139 sets to 0. -/
def sqlwchar_as_sqlchar (env : Env) (fuel : Nat) (charset_info : CHARSET_INFO)
    (str : Option (List Nat)) (len : Int) : Except Trap (AllocResult × Nat) :=
  if env.is_utf8_charset charset_info.number then
    match sqlwchar_as_utf8 env fuel str len with
    | Except.error t => Except.error t
    | Except.ok r => Except.ok (r, 0)
  else
    let len1 : Int := if len = SQL_NTS then (sqlwcharlen str : Int) else len
    match str with
    | none => Except.ok ({ out := none, len := 0 }, 0)
    | some s =>
      if len1 = 0 then Except.ok ({ out := none, len := 0 }, 0)
      else if env.my_malloc 0 = false then Except.ok ({ out := none, len := -1 }, 0)
      else
        match wide_loop env fuel charset_info (sqlwchar_as_sqlchar_out_bytes charset_info len1)
            (memOf s) len1 fuel { str := 0, i := 0, errors := 0, stores := [] } with
        | Except.error t => Except.error t
        | Except.ok st =>
          Except.ok ({ out := some (st.stores ++ [(st.i, 0)]), len := st.i }, st.errors)

/-- The size `bytes` of line 296, computed in `uint32`. -/
def sqlchar_as_sqlchar_bytes (from_charset to_charset : CHARSET_INFO) (len : Int) : Nat :=
  (toU32 len / from_charset.mbminlen * to_charset.mbmaxlen) % 4294967296

/-- The function `sqlchar_as_sqlchar(from_charset, to_charset, str, len, errors)` (lines
286-312); the result is the buffer with `*len`, and `*errors`.  A null `str`
with a length other than 0 makes the decoder read through a null pointer.
Line 304 stores the `uint32` result of `copy_and_convert` in the `SQLINTEGER`
`*len`, which is negative from `2 ^ 31` on; line 309 then stores before the
buffer. -/
def sqlchar_as_sqlchar (env : Env) (fuel : Nat) (from_charset to_charset : CHARSET_INFO)
    (str : Option (List Nat)) (len : Int) (errors : Nat) : Except Trap (AllocResult × Nat) :=
  match strlen_if_nts str len with
  | Except.error t => Except.error t
  | Except.ok len1 =>
    if from_charset.mbminlen = 0 then Except.error Trap.div_by_zero
    else if env.my_malloc 0 = false then Except.ok ({ out := none, len := -1 }, errors)
    else if str = none ∧ toU32 len1 ≠ 0 then Except.error Trap.null_deref
    else
      match copy_and_convert fuel (sqlchar_as_sqlchar_bytes from_charset to_charset len1)
          to_charset (memOf (str.getD [])) (toU32 len1) from_charset errors with
      | none => Except.error Trap.out_of_fuel
      | some r =>
        if toS32 r.ret < 0 then Except.error Trap.out_of_bounds
        else
          Except.ok ({ out := some (r.stores ++ [((toS32 r.ret).toNat, 0)]),
                       len := toS32 r.ret }, r.errors)

/-- The length of a non-null input after the sentinel has been replaced. -/
def input_length (s : List Nat) (len : Int) : Int :=
  if len = SQL_NTS then (count_to_terminator s : Int) else len

/-! ## Example environment -/

/-- Modelled from the spec: `encode_utf8` of section 4.1, a code point to its
1 to 4 bytes of UTF-8. -/
def std_utf32toutf8 (u : Nat) : List Nat :=
  if u < 128 then [u]
  else if u < 2048 then [192 + u / 64, 128 + u % 64]
  else if u < 65536 then [224 + u / 4096, 128 + (u / 64) % 64, 128 + u % 64]
  else [240 + (u / 262144) % 8, 128 + (u / 4096) % 64, 128 + (u / 64) % 64, 128 + u % 64]

/-- Modelled from the spec: `decode_utf8` of section 4.1, standard UTF-8
decoding; the length is taken from the leading byte. -/
def std_utf8toutf32 (mem : Mem) (pos : Nat) : Nat × Nat :=
  if mem pos < 128 then (1, mem pos)
  else if mem pos < 224 then (2, (mem pos % 32) * 64 + mem (pos + 1) % 64)
  else if mem pos < 240 then
    (3, (mem pos % 16) * 4096 + (mem (pos + 1) % 64) * 64 + mem (pos + 2) % 64)
  else
    (4, (mem pos % 8) * 262144 + (mem (pos + 1) % 64) * 4096 + (mem (pos + 2) % 64) * 64
      + mem (pos + 3) % 64)

/-- Modelled from the spec: `decode_utf16` of section 4.1; a high surrogate
combines with the unit after it. -/
def std_utf16toutf32 (mem : Mem) (pos : Nat) : Nat × Nat :=
  if 55296 ≤ mem pos ∧ mem pos ≤ 56319 then
    (2, 65536 + (mem pos % 1024) * 1024 + mem (pos + 1) % 1024)
  else (1, mem pos)

/-- Modelled from the spec: `encode_utf16` of section 4.1; a code point above
0xFFFF becomes a surrogate pair. -/
def std_utf32toutf16 (u : Nat) : List Nat :=
  if 65535 < u then [55296 + (u - 65536) / 1024, 56320 + (u - 65536) % 1024] else [u]

/-- Example environment: wide units of `width` bytes, the example UTF-8
charset, the standard codec, the allocation oracle `malloc`, zeroed heap. -/
def std_env (width : Nat) (malloc : Nat → Bool) : Env :=
  { sizeof_SQLWCHAR := width,
    utf8_charset_info := ex_utf8,
    is_utf8_charset := fun n => n == 33,
    utf32toutf8 := std_utf32toutf8,
    utf8toutf32 := std_utf8toutf32,
    utf16toutf32 := std_utf16toutf32,
    utf32toutf16 := std_utf32toutf16,
    my_malloc := malloc,
    heap := fun _ => 0 }

/-! ## Wide string utilities -/

/-- The function `sqlwcharcasecmp(s1, s2)` (lines 479-499).  The arguments
are the units from each pointer on; memory beyond a list reads as zero. -/
def sqlwcharcasecmp : List Nat → List Nat → Int
  | [], [] => 0
  | [], c2 :: _ => if (0 : Nat) ≠ c2 then 1 else 0
  | c1 :: _, [] => if c1 ≠ 0 then 1 else 0
  | c1 :: s1, c2 :: s2 =>
    if c1 ≠ 0 ∧ c2 ≠ 0 then
      if (if 97 ≤ c1 then c1 - 32 else c1) ≠ (if 97 ≤ c2 then c2 - 32 else c2) then 1
      else sqlwcharcasecmp s1 s2
    else if c1 ≠ c2 then 1 else 0

/-- The loop `while (*wstr != wchr && *wstr++);` of `sqlwcharchr` (line 509):
the offset of `wstr` when the loop ends.  Memory beyond the list reads as
zero. -/
def sqlwcharchr_loop (wchr : Nat) : List Nat → Nat → Nat
  | [], pos => if (0 : Nat) ≠ wchr then pos + 1 else pos
  | u :: us, pos =>
    if u ≠ wchr then
      if u ≠ 0 then sqlwcharchr_loop wchr us (pos + 1) else pos + 1
    else pos

/-- The function `sqlwcharchr(wstr, wchr)` (lines 507-514): the offset
returned, `none` for `NULL`. -/
def sqlwcharchr (wstr : List Nat) (wchr : Nat) : Option Nat :=
  if memOf wstr (sqlwcharchr_loop wchr wstr 0) = wchr then
    some (sqlwcharchr_loop wchr wstr 0)
  else none

/-- The loop of `sqlwchartoul` (lines 563-569) with `end = wstr + k - 1`;
`ulong_mod` is 2 to the width of `unsigned long`. -/
def sqlwchartoul_loop (ulong_mod : Nat) (mem : Mem) : Nat → Int → Nat → Nat
  | 0, _, res => res
  | k + 1, pten, res =>
    if mem k < 48 ∨ 57 < mem k then 0
    else
      sqlwchartoul_loop ulong_mod mem k (toS32 (pten * 10))
        ((res + ((toS32 (((mem k : Int) - 48) * pten)) % (ulong_mod : Int)).toNat) % ulong_mod)

/-- The function `sqlwchartoul(wstr)` (lines 555-571). -/
def sqlwchartoul (ulong_mod : Nat) (wstr : Option (List Nat)) : Nat :=
  match wstr with
  | none => 0
  | some w => sqlwchartoul_loop ulong_mod (memOf w) (sqlwcharlen (some w)) 1 0

/-- The decimal value of a string of digit units, most significant first. -/
def decimal_value (w : List Nat) : Nat :=
  w.foldl (fun acc c => acc * 10 + (c - 48)) 0

/-- The first loop of `sqlwcharfromul` (line 581): `chars` when `v1` reaches 0. -/
def sqlwcharfromul_count : Nat → Nat → Nat → Nat
  | 0, _, chars => chars
  | f + 1, v1, chars => if 0 < v1 then sqlwcharfromul_count f (v1 / 10) (chars + 1) else chars

/-- The second loop of `sqlwcharfromul` (lines 583-584): the stores it makes. -/
def sqlwcharfromul_digits : Nat → Nat → Nat → List (Nat × Nat) → List (Nat × Nat)
  | 0, _, _, ss => ss
  | f + 1, v1, chars, ss =>
    if 0 < v1 then sqlwcharfromul_digits f (v1 / 10) (chars - 1) (ss ++ [(chars - 1, 48 + v1 % 10)])
    else ss

/-- The function `sqlwcharfromul(wstr, v)` (lines 577-585): the stores made
into `wstr`.  Each loop divides `v1` by 10 while it is positive, so `v` passes
are enough fuel. -/
def sqlwcharfromul (v : Nat) : List (Nat × Nat) :=
  sqlwcharfromul_digits v v (sqlwcharfromul_count v v 0) [(sqlwcharfromul_count v v 0, 0)]

/-- The loop `while (*src && *n && (*n)--) *dest++ = *src++;` of
`sqlwcharncat2` (lines 601-602) on `*n`, `dest` (an offset) and the stores
made; `src` is the list of units from the pointer on, zero beyond it. -/
def sqlwcharncat2_loop : List Nat → Nat → Nat → List (Nat × Nat) → Nat × Nat × List (Nat × Nat)
  | [], n, dest, ss => (n, dest, ss)
  | c :: cs, n, dest, ss =>
    if c ≠ 0 ∧ n ≠ 0 then sqlwcharncat2_loop cs (n - 1) (dest + 1) (ss ++ [(dest, c)])
    else (n, dest, ss)

/-- What `sqlwcharncat2` leaves behind: the value returned, `*n` (`none` when
`n` is `NULL`) and the stores made into the buffer of `dest`. -/
structure NcatResult where
  ret : Nat
  n : Option Nat
  stores : List (Nat × Nat)
  deriving DecidableEq, Repr

/-- The function `sqlwcharncat2(dest, src, n)` (lines 595-611) for non-null
`dest` and `src`; `dest` is the content of its buffer. -/
def sqlwcharncat2 (dest src : List Nat) (n : Option Nat) : NcatResult :=
  match n with
  | none => { ret := 0, n := none, stores := [] }
  | some n0 =>
    if n0 = 0 then { ret := 0, n := some 0, stores := [] }
    else
      let r := sqlwcharncat2_loop src n0 (sqlwcharlen (some dest)) []
      if r.1 ≠ 0 then
        { ret := r.2.1 - sqlwcharlen (some dest), n := some (r.1 - 1),
          stores := r.2.2 ++ [(r.2.1, 0)] }
      else
        { ret := r.2.1 - sqlwcharlen (some dest), n := some r.1,
          stores := r.2.2 ++ [(r.2.1 - 1, 0)] }

/-- The first `n` units of a buffer with initial contents `init` after the
stores `ss`. -/
def buffer_contents (init : Mem) (ss : List (Nat × Nat)) (n : Nat) : List Nat :=
  (List.range n).map (load init ss)

/-! ## One jump of `copy_and_convert` -/

/-- One jump of the loop of `copy_and_convert`: from the head of `while (1)`
the decoding of lines 429-448, from `outp` one call of the encoder (lines
451-463).  `Sum.inl` is the label jumped to with the new state, `Sum.inr` the
state at a `break`. -/
def conv_step (to_cs from_cs : CHARSET_INFO) (from_mem : Mem) (from_end to_end : Nat) :
    Label → ConvState → Sum (Label × ConvState) ConvState
  | Label.loop_head, st =>
    let r := from_cs.mb_wc from_mem st.from_pos from_end
    if 0 < r.1 then
      Sum.inl (Label.outp r.2 r.1, { st with from_pos := st.from_pos + r.1.toNat })
    else if r.1 = MY_CS_ILSEQ then
      Sum.inl (Label.outp 63 r.1,
        { st with error_count := (st.error_count + 1) % 4294967296,
                  from_pos := st.from_pos + 1 })
    else if MY_CS_TOOSMALL < r.1 then
      Sum.inl (Label.outp 63 r.1,
        { st with error_count := (st.error_count + 1) % 4294967296,
                  from_pos := st.from_pos + (-r.1).toNat })
    else
      Sum.inr st
  | Label.outp wc from_cnvres, st =>
    let r := to_cs.wc_mb wc st.to_pos to_end
    let st1 : ConvState := { st with stores := st.stores ++ storesAt st.to_pos r.2 }
    if 0 < r.1 then
      Sum.inl (Label.loop_head,
        { st1 with to_pos := st.to_pos + r.1.toNat,
                   used_bytes := toU32 (st.used_bytes + from_cnvres),
                   used_chars := (st.used_chars + 1) % 4294967296 })
    else if r.1 = MY_CS_ILUNI ∧ wc ≠ 63 then
      Sum.inl (Label.outp 63 from_cnvres,
        { st1 with error_count := (st.error_count + 1) % 4294967296 })
    else
      Sum.inr st1

/-- The number of times control is at the head of `while (1)` during the
first `fuel` jumps from the given label and state. -/
def conv_passes (to_cs from_cs : CHARSET_INFO) (from_mem : Mem) (from_end to_end : Nat) :
    Nat → Label → ConvState → Nat
  | 0, _, _ => 0
  | fuel + 1, lbl, st =>
    (match lbl with
      | Label.loop_head => 1
      | Label.outp _ _ => 0) +
    (match conv_step to_cs from_cs from_mem from_end to_end lbl st with
      | Sum.inl (lbl', st') => conv_passes to_cs from_cs from_mem from_end to_end fuel lbl' st'
      | Sum.inr _ => 0)

/-- The decoder of `cs` reports "too small" when no byte remains before the
end offset `e`, and never reports a sequence, mapped or unmappable, that is
longer than the bytes that remain. -/
def DecoderBounded (cs : CHARSET_INFO) (mem : Mem) (e : Nat) : Prop :=
  ∀ s : Nat,
    (e ≤ s → (cs.mb_wc mem s e).1 ≤ MY_CS_TOOSMALL) ∧
    (0 < (cs.mb_wc mem s e).1 → s + (cs.mb_wc mem s e).1.toNat ≤ e) ∧
    (MY_CS_TOOSMALL < (cs.mb_wc mem s e).1 → (cs.mb_wc mem s e).1 < 0 →
      s + (-(cs.mb_wc mem s e).1).toNat ≤ e)

/-- Fuel that the loop needs at most from the given label when `left` source
bytes remain. -/
def Label.src_measure (left : Nat) : Label → Nat
  | Label.loop_head => 3 * left + 1
  | Label.outp wc _ => if wc = 63 then 3 * left + 2 else 3 * left + 3

/-! ## The course of a call of `copy_and_convert` -/

/-- The labels and states that control passes through during the first `fuel`
jumps from the given label and state, in order. -/
def conv_visited (to_cs from_cs : CHARSET_INFO) (from_mem : Mem) (from_end to_end : Nat) :
    Nat → Label → ConvState → List (Label × ConvState)
  | 0, _, _ => []
  | fuel + 1, lbl, st =>
    (lbl, st) ::
      (match conv_step to_cs from_cs from_mem from_end to_end lbl st with
        | Sum.inl (lbl', st') => conv_visited to_cs from_cs from_mem from_end to_end fuel lbl' st'
        | Sum.inr _ => [])

/-- The labels and states of a whole call of `copy_and_convert`. -/
def copy_and_convert_visited (fuel : Nat) (to_length : Nat) (to_cs : CHARSET_INFO)
    (from_mem : Mem) (from_length : Nat) (from_cs : CHARSET_INFO) : List (Label × ConvState) :=
  conv_visited to_cs from_cs from_mem from_length to_length fuel Label.loop_head conv_init

/-- Control is at the head of the loop at a source position where the decoder
reports an illegal sequence. -/
def conv_is_illegal (from_cs : CHARSET_INFO) (from_mem : Mem) (from_end : Nat)
    (c : Label × ConvState) : Bool :=
  match c.1 with
  | Label.loop_head => decide ((from_cs.mb_wc from_mem c.2.from_pos from_end).1 = MY_CS_ILSEQ)
  | Label.outp _ _ => false

/-- Control is at the head of the loop at a source position where the decoder
reports a sequence without Unicode mapping (a result from -1 down to -100). -/
def conv_is_unmappable (from_cs : CHARSET_INFO) (from_mem : Mem) (from_end : Nat)
    (c : Label × ConvState) : Bool :=
  match c.1 with
  | Label.loop_head =>
    decide ((from_cs.mb_wc from_mem c.2.from_pos from_end).1 < 0 ∧
      MY_CS_TOOSMALL < (from_cs.mb_wc from_mem c.2.from_pos from_end).1)
  | Label.outp _ _ => false

/-- Control is at `outp` with a code point other than `?` for which the
encoder reports `MY_CS_ILUNI`. -/
def conv_is_unrepresentable (to_cs : CHARSET_INFO) (to_end : Nat)
    (c : Label × ConvState) : Bool :=
  match c.1 with
  | Label.loop_head => false
  | Label.outp wc _ =>
    decide ((to_cs.wc_mb wc c.2.to_pos to_end).1 = MY_CS_ILUNI ∧ wc ≠ 63)

/-! ## Charsets and codecs that are transparent on ASCII -/

theorem mem_storesAt (vs : List Nat) (base : Nat) (p : Nat × Nat) (h : p ∈ storesAt base vs) :
    base ≤ p.1 ∧ p.1 < base + vs.length := by
  induction vs generalizing base with
  | nil => simp [storesAt] at h
  | cons v vs ih =>
    simp only [storesAt, List.mem_cons] at h
    rcases h with h | h
    · subst h
      simp
    · have := ih (base + 1) h
      simp only [List.length_cons]
      omega

/-! ## `copy_and_convert` stays inside the destination -/

theorem conv_run_within (to_cs from_cs : CHARSET_INFO) (from_mem : Mem) (from_end to_end : Nat)
    (henc : EncoderRespectsEnd to_cs) :
    ∀ (fuel : Nat) (lbl : Label) (st : ConvState),
      st.to_pos ≤ to_end → (∀ p ∈ st.stores, p.1 < to_end) →
      3 * (to_end - st.to_pos) + lbl.weight ≤ fuel →
      ∃ st', conv_run to_cs from_cs from_mem from_end to_end fuel lbl st = some st' ∧
        st'.to_pos ≤ to_end ∧ ∀ p ∈ st'.stores, p.1 < to_end := by
  intro fuel
  induction fuel with
  | zero =>
    intro lbl st _ _ hf
    cases lbl with
    | loop_head => simp [Label.weight] at hf
    | outp wc r =>
      simp only [Label.weight] at hf
      split at hf <;> omega
  | succ n ih =>
    intro lbl st hto hst hf
    cases lbl with
    | loop_head =>
      simp only [Label.weight] at hf
      have hw : ∀ wc r, (Label.outp wc r).weight ≤ 2 := by
        intro wc r
        simp only [Label.weight]
        split <;> omega
      simp only [conv_run]
      split
      · exact ih _ _ hto hst (by have := hw (from_cs.mb_wc from_mem st.from_pos from_end).2
                                    (from_cs.mb_wc from_mem st.from_pos from_end).1; simp only; omega)
      · split
        · exact ih _ _ hto hst (by have := hw 63
                                      (from_cs.mb_wc from_mem st.from_pos from_end).1; simp only; omega)
        · split
          · exact ih _ _ hto hst (by have := hw 63
                                      (from_cs.mb_wc from_mem st.from_pos from_end).1; simp only; omega)
          · exact ⟨st, rfl, hto, hst⟩
    | outp wc r =>
      obtain ⟨hin, hret⟩ := henc wc st.to_pos to_end
      have hst1 : ∀ p ∈ st.stores ++ storesAt st.to_pos (to_cs.wc_mb wc st.to_pos to_end).2,
          p.1 < to_end := by
        intro p hp
        rcases List.mem_append.1 hp with hp | hp
        · exact hst p hp
        · have hb := mem_storesAt _ _ _ hp
          rcases hin with hnil | hle
          · rw [hnil] at hb
            simp at hb
            omega
          · omega
      simp only [conv_run]
      split
      · rename_i hpos
        have hlen := hret hpos
        have hne : (to_cs.wc_mb wc st.to_pos to_end).2 ≠ [] := by
          intro h0
          rw [h0] at hlen
          simp at hlen
          omega
        have hle : st.to_pos + (to_cs.wc_mb wc st.to_pos to_end).2.length ≤ to_end := by
          rcases hin with h | h
          · exact absurd h hne
          · exact h
        have hposlen : 0 < (to_cs.wc_mb wc st.to_pos to_end).2.length := by
          rw [hlen] at hpos
          exact_mod_cast hpos
        have htn : (to_cs.wc_mb wc st.to_pos to_end).1.toNat
            = (to_cs.wc_mb wc st.to_pos to_end).2.length := by
          rw [hlen]
          simp
        have hw1 : 1 ≤ (Label.outp wc r).weight := by
          simp only [Label.weight]
          split <;> omega
        refine ih _ _ ?_ hst1 ?_
        · show st.to_pos + (to_cs.wc_mb wc st.to_pos to_end).1.toNat ≤ to_end
          rw [htn]
          exact hle
        · show 3 * (to_end - (st.to_pos + (to_cs.wc_mb wc st.to_pos to_end).1.toNat))
            + Label.loop_head.weight ≤ n
          rw [htn]
          simp only [Label.weight]
          omega
      · split
        · rename_i hil
          refine ih _ _ hto hst1 ?_
          simp only [Label.weight] at hf ⊢
          rw [if_neg hil.2] at hf
          simp only [if_true]
          omega
        · exact ⟨_, rfl, hto, hst1⟩

/-- C1: with a destination encoder that never stores at or beyond the end
offset it is given and returns the number of bytes it stored,
`copy_and_convert` returns (fuel `3 * to_length + 3` is enough), the value it
returns is at most `to_length`, and every store it makes into `to` is at an
offset below `to_length`, for every source, every source charset and hence
every mix of substitutions. -/
theorem copy_and_convert_within_capacity (to_cs from_cs : CHARSET_INFO) (from_mem : Mem)
    (from_length to_length errors fuel : Nat)
    (henc : EncoderRespectsEnd to_cs) (hfuel : 3 * to_length + 3 ≤ fuel) :
    ∃ r, copy_and_convert fuel to_length to_cs from_mem from_length from_cs errors = some r ∧
      r.ret ≤ to_length ∧ ∀ p ∈ r.stores, p.1 < to_length := by
  obtain ⟨st, hrun, hto, hst⟩ :=
    conv_run_within to_cs from_cs from_mem from_length to_length henc fuel Label.loop_head
      conv_init (by simp [conv_init]) (by simp [conv_init])
      (by simp only [conv_init, Label.weight]; omega)
  rw [copy_and_convert, hrun]
  exact ⟨_, rfl, le_trans (Nat.mod_le _ _) hto, hst⟩

/-! ## The example charsets respect the end offset -/

theorem ex_ascii_respects_end : EncoderRespectsEnd ex_ascii := by
  intro wc s e
  simp only [ex_ascii, ex_ascii_wc_mb]
  split
  · simp [MY_CS_TOOSMALL]
  · split
    · simp
      omega
    · simp [MY_CS_ILUNI]

theorem ex_utf8_respects_end : EncoderRespectsEnd ex_utf8 := by
  intro wc s e
  simp only [ex_utf8, ex_utf8_wc_mb]
  split
  · simp [MY_CS_TOOSMALL]
  · split
    · simp
      omega
    · split
      · split
        · simp
        · simp
          omega
      · split
        · split
          · simp
          · simp
            omega
        · simp [MY_CS_ILUNI]

/-- Witness of C1: the three-byte UTF-8 source `C3 A9 FF 61` converted into
the 7-bit charset with room for two bytes. -/
theorem copy_and_convert_within_capacity_witness :
    ∃ r, copy_and_convert 9 2 ex_ascii (memOf [195, 169, 255, 97]) 4 ex_utf8 0 = some r ∧
      r.ret ≤ 2 ∧ ∀ p ∈ r.stores, p.1 < 2 :=
  copy_and_convert_within_capacity ex_ascii ex_utf8 (memOf [195, 169, 255, 97]) 4 2 0 9
    ex_ascii_respects_end (by decide)

/-! ## Accounting of consumed bytes -/

/-- C2: the code adds `from_cnvres` to `*used_bytes`, not the number of bytes
the loop advanced over.  On the one-byte UTF-8 source `FF` (illegal sequence,
`from_cnvres = 0`) the byte is replaced by `?`, stored and counted as one
character, and `*used_bytes` is 0, not 1; on the one-byte source `80` of the
7-bit charset (no Unicode mapping, `from_cnvres = -1`) `*used_bytes` is
`2^32 - 1`, not 1. -/
theorem copy_and_convert_used_bytes_undercount :
    copy_and_convert 5 4 ex_ascii (memOf [255]) 1 ex_utf8 0
      = some { ret := 1, used_bytes := 0, used_chars := 1, errors := 1, stores := [(0, 63)] } ∧
    copy_and_convert 5 4 ex_utf8 (memOf [128]) 1 ex_ascii 0
      = some { ret := 1, used_bytes := 4294967295, used_chars := 1, errors := 1,
               stores := [(0, 63)] } := by
  constructor <;> decide

/-! ## Conversion of a well-formed, representable source -/

theorem storesAt_append (xs ys : List Nat) (base : Nat) :
    storesAt base (xs ++ ys) = storesAt base xs ++ storesAt (base + xs.length) ys := by
  induction xs generalizing base with
  | nil => simp [storesAt]
  | cons x xs ih =>
    show (base, x) :: storesAt (base + 1) (xs ++ ys)
      = (base, x) :: (storesAt (base + 1) xs ++ storesAt (base + (xs.length + 1)) ys)
    rw [ih (base + 1), Nat.add_assoc, Nat.add_comm 1]

theorem toU32_add_natCast (a b : Nat) (h : a + b < 4294967296) :
    toU32 ((a : Int) + (b : Int)) = a + b := by
  unfold toU32
  have h1 : ((a : Int) + (b : Int)) % 4294967296 = (a : Int) + (b : Int) :=
    Int.emod_eq_of_lt (by omega) (by omega)
  rw [h1]
  omega

theorem decodesAs_length_le (from_cs : CHARSET_INFO) (mem : Mem) (e : Nat)
    (dec : List Nat → Nat) :
    ∀ (cs : List (List Nat)) (pos : Nat), DecodesAs from_cs mem e dec pos cs →
      cs.length ≤ cs.flatten.length := by
  intro cs
  induction cs with
  | nil => intro _ _; simp
  | cons c cs ih =>
    intro pos hd
    obtain ⟨hc, _, hrest⟩ := hd
    have := ih _ hrest
    have hclen : 0 < c.length := List.length_pos.2 hc
    simp only [List.length_cons, List.flatten_cons, List.length_append]
    omega

theorem conv_run_exact (to_cs from_cs : CHARSET_INFO) (mem : Mem) (e to_end : Nat)
    (dec : List Nat → Nat) (enc : Nat → List Nat)
    (hend : (from_cs.mb_wc mem e e).1 ≤ MY_CS_TOOSMALL) :
    ∀ (cs : List (List Nat)) (fuel : Nat) (st : ConvState),
      DecodesAs from_cs mem e dec st.from_pos cs →
      st.from_pos + cs.flatten.length = e →
      (∀ c ∈ cs, EncodesAs to_cs enc (dec c)) →
      st.to_pos + (cs.flatMap (fun c => enc (dec c))).length ≤ to_end →
      st.used_bytes + cs.flatten.length < 4294967296 →
      st.used_chars + cs.length < 4294967296 →
      2 * cs.length + 1 ≤ fuel →
      conv_run to_cs from_cs mem e to_end fuel Label.loop_head st =
        some { from_pos := e,
               to_pos := st.to_pos + (cs.flatMap (fun c => enc (dec c))).length,
               used_bytes := st.used_bytes + cs.flatten.length,
               used_chars := st.used_chars + cs.length,
               error_count := st.error_count,
               stores := st.stores ++ storesAt st.to_pos (cs.flatMap (fun c => enc (dec c))) } := by
  intro cs
  induction cs with
  | nil =>
    intro fuel st _ hpos _ _ _ _ hfuel
    obtain ⟨f, rfl⟩ : ∃ f, fuel = f + 1 := ⟨fuel - 1, by omega⟩
    simp only [List.flatten_nil, List.length_nil, Nat.add_zero] at hpos
    simp only [MY_CS_TOOSMALL] at hend
    have h1 : ¬ 0 < (from_cs.mb_wc mem st.from_pos e).1 := by rw [hpos]; omega
    have h2 : ¬ (from_cs.mb_wc mem st.from_pos e).1 = MY_CS_ILSEQ := by
      rw [hpos]; simp only [MY_CS_ILSEQ]; omega
    have h3 : ¬ MY_CS_TOOSMALL < (from_cs.mb_wc mem st.from_pos e).1 := by
      rw [hpos]; simp only [MY_CS_TOOSMALL]; omega
    simp only [conv_run, if_neg h1, if_neg h2, if_neg h3]
    cases st
    simp_all [storesAt]
  | cons c cs ih =>
    intro fuel st hd hpos henc hroom hub huc hfuel
    obtain ⟨f, rfl⟩ : ∃ f, fuel = f + 2 := ⟨fuel - 2, by simp only [List.length_cons] at hfuel; omega⟩
    obtain ⟨hc, hdc, hrest⟩ := hd
    obtain ⟨hne, hwr⟩ := henc c (List.mem_cons_self _ _)
    have hclen : 0 < c.length := List.length_pos.2 hc
    have helen : 0 < (enc (dec c)).length := List.length_pos.2 hne
    simp only [List.flatten_cons, List.length_append, List.flatMap_cons, List.length_cons]
      at hpos hroom hub huc hfuel
    have hw := hwr st.to_pos to_end (by omega)
    have hp1 : (0 : Int) < (c.length : Int) := by exact_mod_cast hclen
    have hp2 : (0 : Int) < ((enc (dec c)).length : Int) := by exact_mod_cast helen
    simp only [conv_run, hdc, hw, if_pos hp1, if_pos hp2, Int.toNat_ofNat]
    rw [ih f _ hrest (by show st.from_pos + c.length + cs.flatten.length = e; omega)
      (fun c' hc' => henc c' (List.mem_cons_of_mem _ hc'))
      (by show st.to_pos + (enc (dec c)).length
            + (cs.flatMap (fun c => enc (dec c))).length ≤ to_end
          omega)
      (by show toU32 ((st.used_bytes : Int) + (c.length : Int)) + cs.flatten.length < 4294967296
          rw [toU32_add_natCast _ _ (by omega)]
          omega)
      (by show (st.used_chars + 1) % 4294967296 + cs.length < 4294967296
          rw [Nat.mod_eq_of_lt (by omega)]
          omega)
      (by omega)]
    simp only [List.flatten_cons, List.flatMap_cons, List.length_append, List.length_cons,
      storesAt_append, List.append_assoc]
    rw [toU32_add_natCast _ _ (by omega), Nat.mod_eq_of_lt (by omega)]
    simp only [Nat.add_assoc, Nat.add_comm 1]

/-- C3: when the source is the concatenation of the characters `chars`, each
decoded by the source charset to a code point `dec c` that the destination
charset encodes as `enc (dec c)`, the decoder reports "too small" at the end of
the source, and `to_length` is at least the total encoded length, then
`copy_and_convert` returns (fuel `2 * k + 1` is enough), stores exactly the
encodings in order from offset 0, returns their total length, sets
`*used_bytes` to `from_length` and `*used_chars` to the number of characters,
and leaves `*errors` unchanged. -/
theorem copy_and_convert_exact (to_cs from_cs : CHARSET_INFO) (chars : List (List Nat))
    (dec : List Nat → Nat) (enc : Nat → List Nat) (to_length errors fuel : Nat)
    (hdec : DecodesAs from_cs (memOf chars.flatten) chars.flatten.length dec 0 chars)
    (hend : (from_cs.mb_wc (memOf chars.flatten) chars.flatten.length
      chars.flatten.length).1 ≤ MY_CS_TOOSMALL)
    (henc : ∀ c ∈ chars, EncodesAs to_cs enc (dec c))
    (hroom : (chars.flatMap (fun c => enc (dec c))).length ≤ to_length)
    (hto : to_length < 4294967296) (hfrom : chars.flatten.length < 4294967296)
    (herr : errors < 4294967296) (hfuel : 2 * chars.length + 1 ≤ fuel) :
    copy_and_convert fuel to_length to_cs (memOf chars.flatten) chars.flatten.length from_cs errors
      = some { ret := (chars.flatMap (fun c => enc (dec c))).length,
               used_bytes := chars.flatten.length,
               used_chars := chars.length,
               errors := errors,
               stores := storesAt 0 (chars.flatMap (fun c => enc (dec c))) } := by
  have hk : chars.length ≤ chars.flatten.length := decodesAs_length_le _ _ _ _ chars 0 hdec
  have hrun := conv_run_exact to_cs from_cs (memOf chars.flatten) chars.flatten.length to_length
    dec enc hend chars fuel conv_init hdec (by simp [conv_init]) henc
    (by simp only [conv_init]; omega) (by simp only [conv_init]; omega)
    (by simp only [conv_init]; omega) hfuel
  simp only [conv_init, Nat.zero_add, List.nil_append] at hrun
  simp only [copy_and_convert, conv_init, hrun]
  rw [Nat.mod_eq_of_lt (by omega), Nat.add_zero, Nat.mod_eq_of_lt herr]

theorem ex_utf8_encodesAs (wc : Nat) (h : wc < 2048) : EncodesAs ex_utf8 ex_utf8_enc wc := by
  unfold EncodesAs ex_utf8_enc
  by_cases h1 : wc < 128
  · simp only [if_pos h1, ex_utf8, ex_utf8_wc_mb]
    refine ⟨by simp, ?_⟩
    intro s e hse
    simp only [List.length_singleton] at hse
    rw [if_neg (by omega)]
    simp
  · simp only [if_neg h1, ex_utf8, ex_utf8_wc_mb]
    refine ⟨by simp, ?_⟩
    intro s e hse
    simp only [List.length_cons, List.length_nil] at hse
    rw [if_neg (by omega), if_pos h, if_neg (by omega)]
    simp

/-- Witness of C3: the UTF-8 source `63 C3 A9` ("c", "é") copied into a UTF-8
destination of 8 bytes. -/
theorem copy_and_convert_exact_witness :
    copy_and_convert 5 8 ex_utf8 (memOf [99, 195, 169]) 3 ex_utf8 0
      = some { ret := 3, used_bytes := 3, used_chars := 2, errors := 0,
               stores := [(0, 99), (1, 195), (2, 169)] } :=
  copy_and_convert_exact ex_utf8 ex_utf8 [[99], [195, 169]] ex_utf8_dec ex_utf8_enc 8 0 5
    (by decide) (by decide)
    (by
      intro c hc
      simp only [List.mem_cons, List.mem_singleton, List.not_mem_nil, or_false] at hc
      rcases hc with rfl | rfl
      · exact ex_utf8_encodesAs _ (by decide)
      · exact ex_utf8_encodesAs _ (by decide))
    (by decide) (by decide) (by decide) (by decide) (by decide)

/-! ## Substitution of `?` -/

theorem conv_run_stores_grow (to_cs from_cs : CHARSET_INFO) (mem : Mem)
    (from_end to_end : Nat) :
    ∀ (fuel : Nat) (lbl : Label) (st st' : ConvState),
      conv_run to_cs from_cs mem from_end to_end fuel lbl st = some st' →
      ∃ tail, st'.stores = st.stores ++ tail := by
  intro fuel
  induction fuel with
  | zero =>
    intro lbl st st' h
    simp [conv_run] at h
  | succ n ih =>
    intro lbl st st' h
    cases lbl with
    | loop_head =>
      simp only [conv_run] at h
      split at h
      · obtain ⟨tail, ht⟩ := ih _ _ _ h
        exact ⟨tail, ht⟩
      · split at h
        · obtain ⟨tail, ht⟩ := ih _ _ _ h
          exact ⟨tail, ht⟩
        · split at h
          · obtain ⟨tail, ht⟩ := ih _ _ _ h
            exact ⟨tail, ht⟩
          · simp only [Option.some.injEq] at h
            subst h
            exact ⟨[], by simp⟩
    | outp wc r =>
      simp only [conv_run] at h
      split at h
      · obtain ⟨tail, ht⟩ := ih _ _ _ h
        exact ⟨_, by rw [ht, List.append_assoc]⟩
      · split at h
        · obtain ⟨tail, ht⟩ := ih _ _ _ h
          exact ⟨_, by rw [ht, List.append_assoc]⟩
        · simp only [Option.some.injEq] at h
          subst h
          exact ⟨_, rfl⟩

/-- C5: at `outp`, when the destination encoder reports `MY_CS_ILUNI` for a
code point other than `?`, `error_count` grows by one (as a `uint`) and the
encoder is called once more, for U+003F at the same place.  If that call
succeeds, its bytes are stored, `to` advances, the character is counted in
`*used_chars` and `from_cnvres` is added to `*used_bytes`, and the loop goes
on; if it does not succeed (`?` unrepresentable or no room), the loop stops
there with `*used_bytes` and `*used_chars` as they were. -/
theorem copy_and_convert_unrepresentable (to_cs from_cs : CHARSET_INFO) (mem : Mem)
    (from_end to_end n wc : Nat) (from_cnvres : Int) (st : ConvState)
    (hwc : wc ≠ 63) (hil : (to_cs.wc_mb wc st.to_pos to_end).1 = MY_CS_ILUNI) :
    (0 < (to_cs.wc_mb 63 st.to_pos to_end).1 →
      conv_run to_cs from_cs mem from_end to_end (n + 2) (Label.outp wc from_cnvres) st
        = conv_run to_cs from_cs mem from_end to_end n Label.loop_head
            { from_pos := st.from_pos,
              to_pos := st.to_pos + (to_cs.wc_mb 63 st.to_pos to_end).1.toNat,
              used_bytes := toU32 (st.used_bytes + from_cnvres),
              used_chars := (st.used_chars + 1) % 4294967296,
              error_count := (st.error_count + 1) % 4294967296,
              stores := (st.stores ++ storesAt st.to_pos (to_cs.wc_mb wc st.to_pos to_end).2)
                ++ storesAt st.to_pos (to_cs.wc_mb 63 st.to_pos to_end).2 }) ∧
    (¬ 0 < (to_cs.wc_mb 63 st.to_pos to_end).1 →
      conv_run to_cs from_cs mem from_end to_end (n + 2) (Label.outp wc from_cnvres) st
        = some
            { from_pos := st.from_pos,
              to_pos := st.to_pos,
              used_bytes := st.used_bytes,
              used_chars := st.used_chars,
              error_count := (st.error_count + 1) % 4294967296,
              stores := (st.stores ++ storesAt st.to_pos (to_cs.wc_mb wc st.to_pos to_end).2)
                ++ storesAt st.to_pos (to_cs.wc_mb 63 st.to_pos to_end).2 }) := by
  have h1 : ¬ 0 < (to_cs.wc_mb wc st.to_pos to_end).1 := by
    rw [hil]
    decide
  have h2 : (to_cs.wc_mb wc st.to_pos to_end).1 = MY_CS_ILUNI ∧ wc ≠ 63 := ⟨hil, hwc⟩
  constructor
  · intro h3
    simp only [conv_run, if_neg h1, if_pos h2, if_pos h3]
  · intro h3
    simp only [conv_run, if_neg h1, if_pos h2, if_neg h3, ne_eq, not_true_eq_false, and_false,
      if_false]

/-- Witness of C5: U+00E9, decoded from two bytes, offered to the 7-bit
charset, once with room for `?` and once at the last byte of a destination
whose encoder is then out of room. -/
theorem copy_and_convert_unrepresentable_witness :
    conv_run ex_ascii ex_utf8 (memOf [195, 169]) 2 4 (1 + 2) (Label.outp 233 2)
        { from_pos := 2, to_pos := 0, used_bytes := 0, used_chars := 0, error_count := 0,
          stores := [] }
      = conv_run ex_ascii ex_utf8 (memOf [195, 169]) 2 4 1 Label.loop_head
          { from_pos := 2, to_pos := 1, used_bytes := 2, used_chars := 1, error_count := 1,
            stores := [(0, 63)] } :=
  (copy_and_convert_unrepresentable ex_ascii ex_utf8 (memOf [195, 169]) 2 4 1 233 2
    { from_pos := 2, to_pos := 0, used_bytes := 0, used_chars := 0, error_count := 0,
      stores := [] } (by decide) (by decide)).1 (by decide)

/-! ## The bounded converters -/

theorem wide_loop_exit (env : Env) (fuel : Nat) (cs : CHARSET_INFO) (out_bytes : Int) (mem : Mem)
    (str_end : Int) :
    ∀ (n : Nat) (st st' : WideState),
      wide_loop env fuel cs out_bytes mem str_end n st = Except.ok st' →
      ¬ ((st'.str : Int) < str_end) := by
  intro n
  induction n with
  | zero =>
    intro st st' h
    simp [wide_loop] at h
  | succ n ih =>
    intro st st' h
    simp only [wide_loop] at h
    split at h
    · split at h
      · simp at h
      · exact ih _ _ h
    · simp only [Except.ok.injEq] at h
      subst h
      assumption

theorem sqlwchar_as_sqlchar_buf_ret_zero (env : Env) (fuel : Nat) (cs : CHARSET_INFO)
    (out_bytes : Int) (str : Option (List Nat)) (len : Int) (r : BufResult)
    (h : sqlwchar_as_sqlchar_buf env fuel cs out_bytes str len = Except.ok r) : r.ret = 0 := by
  unfold sqlwchar_as_sqlchar_buf at h
  generalize (if len = SQL_NTS then (sqlwcharlen str : Int) else len) = len1 at h
  cases str with
  | none =>
    simp only [Except.ok.injEq] at h
    subst h
    rfl
  | some s =>
    simp only at h
    by_cases h0 : len1 = 0
    · rw [if_pos h0] at h
      simp only [Except.ok.injEq] at h
      subst h
      rfl
    · rw [if_neg h0] at h
      cases h1 : wide_loop env fuel cs out_bytes (memOf s) len1 fuel
          { str := 0, i := 0, errors := 0, stores := [] } with
      | error t =>
        rw [h1] at h
        simp at h
      | ok st1 =>
        rw [h1] at h
        have hexit := wide_loop_exit _ _ _ _ _ _ _ _ _ h1
        cases fuel with
        | zero => simp [wide_loop] at h1
        | succ n =>
          simp only [wide_loop, if_neg hexit, Except.ok.injEq] at h
          subst h
          rfl

/-- C6: on the wide string "abc" (length given by the sentinel), a 7-bit
destination charset and room for 10 bytes, `sqlwchar_as_sqlchar_buf` stores
`a`, `b`, `c` and the terminating zero at index 3 and returns 0, not 3: line
366 sets `i` back to 0 before a second loop that never runs.  The same holds
with 4-byte wide units. -/
theorem sqlwchar_as_sqlchar_buf_abc_returns_zero :
    sqlwchar_as_sqlchar_buf (std_env 2 (fun _ => true)) 8 ex_ascii 10 (some [97, 98, 99, 0])
        SQL_NTS
      = Except.ok { ret := 0, errors := 0, stores := [(0, 97), (1, 98), (2, 99), (3, 0)] } ∧
    sqlwchar_as_sqlchar_buf (std_env 4 (fun _ => true)) 8 ex_ascii 10 (some [97, 98, 99, 0])
        SQL_NTS
      = Except.ok { ret := 0, errors := 0, stores := [(0, 97), (1, 98), (2, 99), (3, 0)] } := by
  constructor <;> decide

/-- C7: with the 7-bit destination charset, whose encoder respects its end
offset, capacity `out_bytes = 3` and the wide string "abc",
`sqlwchar_as_sqlchar_buf` fills the three bytes and stores the terminating
zero at index 3, which is not below `out_bytes`. -/
theorem sqlwchar_as_sqlchar_buf_terminator_past_capacity :
    EncoderRespectsEnd ex_ascii ∧
    sqlwchar_as_sqlchar_buf (std_env 2 (fun _ => true)) 8 ex_ascii 3 (some [97, 98, 99, 0]) 3
      = Except.ok { ret := 0, errors := 0, stores := [(0, 97), (1, 98), (2, 99), (3, 0)] } ∧
    ¬ ∀ p ∈ [(0, 97), (1, 98), (2, 99), (3, 0)], p.1 < 3 := by
  refine ⟨ex_ascii_respects_end, by decide, by decide⟩

/-- C8: with capacity `out_max = 1` and the one-byte UTF-8 input "a",
`utf8_as_sqlwchar` stores `a` at index 0 and the terminating zero at index 1,
which is not below `out_max`, for wide units of 2 and of 4 bytes; with 2-byte
units, capacity 1 and the four-byte input `F0 9F 98 80` it stores a surrogate
pair at indices 0 and 1 and the terminator at index 2. -/
theorem utf8_as_sqlwchar_terminator_past_capacity :
    utf8_as_sqlwchar (std_env 2 (fun _ => true)) 8 1 [97] 1
      = Except.ok { ret := 1, stores := [(0, 97), (1, 0)] } ∧
    utf8_as_sqlwchar (std_env 4 (fun _ => true)) 8 1 [97] 1
      = Except.ok { ret := 1, stores := [(0, 97), (1, 0)] } ∧
    utf8_as_sqlwchar (std_env 2 (fun _ => true)) 8 1 [240, 159, 152, 128] 4
      = Except.ok { ret := 2, stores := [(0, 55357), (1, 56832), (2, 0)] } := by
  refine ⟨by decide, by decide, by decide⟩

/-! ## The allocating bridge functions: allocation failure and the terminator -/

theorem copy_and_convert_returns (to_cs from_cs : CHARSET_INFO) (from_mem : Mem)
    (from_length to_length errors fuel : Nat)
    (henc : EncoderRespectsEnd to_cs) (hfuel : 3 * to_length + 3 ≤ fuel) :
    ∃ r, copy_and_convert fuel to_length to_cs from_mem from_length from_cs errors = some r := by
  obtain ⟨st, hrun, _, _⟩ :=
    conv_run_within to_cs from_cs from_mem from_length to_length henc fuel Label.loop_head
      conv_init (by simp [conv_init]) (by simp [conv_init])
      (by simp only [conv_init, Label.weight]; omega)
  rw [copy_and_convert, hrun]
  exact ⟨_, rfl⟩

theorem strlen_if_nts_some (s : List Nat) (len : Int) :
    strlen_if_nts (some s) len = Except.ok (input_length s len) := by
  unfold strlen_if_nts input_length
  split <;> rfl

theorem input_length_ne_zero (s : List Nat) (len : Int)
    (h : 0 < len ∨ (len = SQL_NTS ∧ 0 < count_to_terminator s)) : input_length s len ≠ 0 := by
  unfold input_length
  rcases h with h | ⟨h, hc⟩
  · have : len ≠ SQL_NTS := by
      intro h'
      rw [h'] at h
      simp [SQL_NTS] at h
    rw [if_neg this]
    omega
  · rw [if_pos h]
    omega

theorem sqlwcharlen_ne_zero (s : List Nat) (len : Int)
    (h : 0 < len ∨ (len = SQL_NTS ∧ 0 < count_to_terminator s)) :
    (if len = SQL_NTS then (sqlwcharlen (some s) : Int) else len) ≠ 0 :=
  input_length_ne_zero s len h

theorem sqlchar_as_sqlwchar_alloc_fails (env : Env) (fuel : Nat) (cs : CHARSET_INFO)
    (s : List Nat) (len : Int) (errors : Nat)
    (hne : 0 < len ∨ (len = SQL_NTS ∧ 0 < count_to_terminator s))
    (hmin : 0 < cs.mbminlen) (hutf8 : EncoderRespectsEnd env.utf8_charset_info)
    (hfuel : 3 * sqlchar_as_sqlwchar_u8_max env cs (input_length s len) + 3 ≤ fuel)
    (hfail : env.my_malloc 0 = false ∨
      (env.is_utf8_charset cs.number = false ∧ env.my_malloc 1 = false)) :
    ∃ e, sqlchar_as_sqlwchar env fuel cs (some s) len errors
      = Except.ok ({ out := none, len := -1 }, e) := by
  unfold sqlchar_as_sqlwchar
  rw [strlen_if_nts_some]
  simp only
  rw [if_neg (input_length_ne_zero s len hne)]
  by_cases hu : env.is_utf8_charset cs.number = false
  · rw [if_pos hu, if_neg (by omega)]
    by_cases hm : env.my_malloc 0 = false
    · rw [if_pos hm]
      exact ⟨_, rfl⟩
    · rw [if_neg hm]
      obtain ⟨r, hr⟩ := copy_and_convert_returns env.utf8_charset_info cs (memOf s)
        (toU32 (input_length s len)) (sqlchar_as_sqlwchar_u8_max env cs (input_length s len))
        errors fuel hutf8 hfuel
      rw [hr]
      have h1 : env.my_malloc 1 = false := by
        rcases hfail with h | h
        · exact absurd h hm
        · exact h.2
      simp only [sqlchar_as_sqlwchar_out, if_pos h1]
      exact ⟨_, rfl⟩
  · rw [if_neg hu]
    have h0 : env.my_malloc 0 = false := by
      rcases hfail with h | h
      · exact h
      · exact absurd h.1 hu
    simp only [sqlchar_as_sqlwchar_out, if_pos h0]
    exact ⟨_, rfl⟩

theorem sqlwchar_as_utf8_alloc_fails (env : Env) (fuel : Nat) (s : List Nat) (len : Int)
    (hne : 0 < len ∨ (len = SQL_NTS ∧ 0 < count_to_terminator s))
    (hfail : env.my_malloc 0 = false) :
    sqlwchar_as_utf8 env fuel (some s) len = Except.ok { out := none, len := -1 } := by
  unfold sqlwchar_as_utf8
  simp only
  rw [if_neg (sqlwcharlen_ne_zero s len hne), if_pos hfail]

theorem sqlwchar_as_sqlchar_alloc_fails (env : Env) (fuel : Nat) (cs : CHARSET_INFO)
    (s : List Nat) (len : Int)
    (hne : 0 < len ∨ (len = SQL_NTS ∧ 0 < count_to_terminator s))
    (hfail : env.my_malloc 0 = false) :
    sqlwchar_as_sqlchar env fuel cs (some s) len
      = Except.ok ({ out := none, len := -1 }, 0) := by
  unfold sqlwchar_as_sqlchar
  by_cases hu : env.is_utf8_charset cs.number = true
  · rw [if_pos hu, sqlwchar_as_utf8_alloc_fails env fuel s len hne hfail]
  · rw [if_neg hu]
    simp only
    rw [if_neg (sqlwcharlen_ne_zero s len hne), if_pos hfail]

theorem sqlchar_as_sqlchar_alloc_fails (env : Env) (fuel : Nat) (cs1 cs2 : CHARSET_INFO)
    (s : List Nat) (len : Int) (errors : Nat) (hmin : 0 < cs1.mbminlen)
    (hfail : env.my_malloc 0 = false) :
    sqlchar_as_sqlchar env fuel cs1 cs2 (some s) len errors
      = Except.ok ({ out := none, len := -1 }, errors) := by
  unfold sqlchar_as_sqlchar
  rw [strlen_if_nts_some]
  simp only
  rw [if_neg (by omega), if_pos hfail]

/-- C9: `sqlwchar_as_sqlchar` does not keep the terminator inside the buffer
it returns.  For the one wide character U+1F600 (4-byte units, `*len = 1`), a
7-bit destination charset and the three-byte UTF-8 charset as
`utf8_charset_info`, line 152 requests `out_bytes = 2` bytes; each of the four
UTF-8 bytes of the character is an illegal sequence, `copy_and_convert` is
offered all of `out_bytes - i` and stores `?` at indices 0 and 1, and line 181
stores the zero at index 2 = `out_bytes`, outside the buffer, returning it
with `*len = 2`.  With 2-byte units and the surrogate pair `D83D DE00` the
request is for 3 bytes and the zero goes to index 3.  When the request fails
the same call returns `NULL` with `*len = -1`.  The sibling
`sqlchar_as_sqlchar` requests `bytes + 1` and offers `copy_and_convert` only
`bytes`: on the same four UTF-8 bytes it requests 5 bytes and stores the zero
at index 4. -/
theorem sqlwchar_as_sqlchar_terminator_past_allocation :
    sqlwchar_as_sqlchar_out_bytes ex_ascii 1 = 2 ∧
    sqlwchar_as_sqlchar (std_env 4 (fun _ => true)) 8 ex_ascii (some [128512, 0]) 1
      = Except.ok ({ out := some [(0, 63), (1, 63), (2, 0)], len := 2 }, 3) ∧
    (¬ ∀ p ∈ [(0, 63), (1, 63), (2, 0)], p.1 < 2) ∧
    sqlwchar_as_sqlchar_out_bytes ex_ascii 2 = 3 ∧
    sqlwchar_as_sqlchar (std_env 2 (fun _ => true)) 8 ex_ascii (some [55357, 56832, 0]) 2
      = Except.ok ({ out := some [(0, 63), (1, 63), (2, 63), (3, 0)], len := 3 }, 4) ∧
    (¬ ∀ p ∈ [(0, 63), (1, 63), (2, 63), (3, 0)], p.1 < 3) ∧
    sqlwchar_as_sqlchar (std_env 4 (fun _ => false)) 8 ex_ascii (some [128512, 0]) 1
      = Except.ok ({ out := none, len := -1 }, 0) ∧
    sqlchar_as_sqlchar_bytes ex_utf8 ex_ascii 4 + 1 = 5 ∧
    sqlchar_as_sqlchar (std_env 4 (fun _ => true)) 20 ex_utf8 ex_ascii
        (some [240, 159, 152, 128, 0]) 4 0
      = Except.ok ({ out := some [(0, 63), (1, 63), (2, 63), (3, 63), (4, 0)], len := 4 }, 4) := by
  refine ⟨by decide, by decide, by decide, by decide, by decide, by decide, by decide,
    by decide, by decide⟩

/-- C10: `sqlchar_as_sqlchar` has no test for an empty input.  With explicit
length 0, and with the sentinel on a string whose first byte is the
terminator, it requests one byte and, when the request succeeds, returns a
non-null buffer holding the terminator, with `*len = 0`; when the request
fails it returns `NULL` with `*len = -1`.  The three other allocating
functions return `NULL` with `*len = 0` on the same inputs. -/
theorem sqlchar_as_sqlchar_empty_input_allocates :
    sqlchar_as_sqlchar (std_env 2 (fun _ => true)) 8 ex_ascii ex_utf8 (some [0]) 0 0
      = Except.ok ({ out := some [(0, 0)], len := 0 }, 0) ∧
    sqlchar_as_sqlchar (std_env 2 (fun _ => true)) 8 ex_ascii ex_utf8 (some [0]) SQL_NTS 0
      = Except.ok ({ out := some [(0, 0)], len := 0 }, 0) ∧
    sqlchar_as_sqlchar (std_env 2 (fun _ => false)) 8 ex_ascii ex_utf8 (some [0]) 0 0
      = Except.ok ({ out := none, len := -1 }, 0) ∧
    sqlchar_as_sqlwchar (std_env 2 (fun _ => true)) 8 ex_ascii (some [0]) SQL_NTS 0
      = Except.ok ({ out := none, len := 0 }, 0) ∧
    sqlwchar_as_sqlchar (std_env 2 (fun _ => true)) 8 ex_ascii (some [0]) SQL_NTS
      = Except.ok ({ out := none, len := 0 }, 0) ∧
    sqlwchar_as_utf8 (std_env 2 (fun _ => true)) 8 (some [0]) SQL_NTS
      = Except.ok { out := none, len := 0 } := by
  refine ⟨by decide, by decide, by decide, by decide, by decide, by decide⟩

/-! ## `sqlchar_as_sqlwchar` on a null source and on invalid UTF-8 -/

/-- C11: called with a `NULL` source and the sentinel `SQL_NTS`,
`sqlchar_as_sqlwchar` does not return `NULL` with `*len = 0`: line 56 calls
`strlen` on the null pointer before line 58 tests `!str`, for every charset.
With an explicit length the test of line 58 is reached and gives `NULL` and
0, and the sibling `sqlwchar_as_sqlchar`, which measures with `sqlwcharlen`,
gives `NULL` and 0 for a `NULL` source and the sentinel. -/
theorem sqlchar_as_sqlwchar_null_sentinel :
    (∀ (env : Env) (fuel : Nat) (cs : CHARSET_INFO) (errors : Nat),
      sqlchar_as_sqlwchar env fuel cs none SQL_NTS errors = Except.error Trap.null_deref) ∧
    (∀ (env : Env) (fuel : Nat) (cs : CHARSET_INFO) (errors : Nat),
      sqlchar_as_sqlwchar env fuel cs none 5 errors
        = Except.ok ({ out := none, len := 0 }, errors)) ∧
    sqlwchar_as_sqlchar (std_env 2 (fun _ => true)) 8 ex_ascii none SQL_NTS
      = Except.ok ({ out := none, len := 0 }, 0) := by
  refine ⟨?_, ?_, by decide⟩
  · intro env fuel cs errors
    rfl
  · intro env fuel cs errors
    rfl

theorem sqlchar_as_sqlwchar_utf8_errors (env : Env) (fuel : Nat) (cs : CHARSET_INFO)
    (str : Option (List Nat)) (len : Int) (errors : Nat) (r : AllocResult × Nat)
    (hutf8 : env.is_utf8_charset cs.number = true)
    (h : sqlchar_as_sqlwchar env fuel cs str len errors = Except.ok r) : r.2 = errors := by
  unfold sqlchar_as_sqlwchar at h
  split at h
  · simp at h
  · split at h
    · simp only [Except.ok.injEq] at h
      subst h
      rfl
    · split at h
      · simp only [Except.ok.injEq] at h
        subst h
        rfl
      · rw [if_neg (by simp [hutf8])] at h
        unfold sqlchar_as_sqlwchar_out at h
        split at h
        · simp only [Except.ok.injEq] at h
          subst h
          rfl
        · split at h
          · simp at h
          · simp only [Except.ok.injEq] at h
            subst h
            rfl

/-- C13: for the UTF-8 charset the input does not pass through
`copy_and_convert`, and nothing else in `sqlchar_as_sqlwchar` touches
`*errors`: on the input `FF` with the sentinel and `*errors = 0`, whatever the
codec functions `utf8toutf32` and `utf32toutf16` do and whatever the width of
`SQLWCHAR`, a call that returns leaves `*errors` at 0, not 1.  With the
standard codec the call returns units computed from the bytes `FF 00 00 00`,
not `?`; the same input under the 7-bit charset, which does go through
`copy_and_convert`, gives one `?` and `*errors = 1`. -/
theorem sqlchar_as_sqlwchar_invalid_utf8_not_counted :
    (∀ (dec : Mem → Nat → Nat × Nat) (enc16 : Nat → List Nat) (width fuel : Nat)
        (r : AllocResult × Nat),
      sqlchar_as_sqlwchar
          { std_env width (fun _ => true) with utf8toutf32 := dec, utf32toutf16 := enc16 }
          fuel ex_utf8 (some [255, 0]) SQL_NTS 0 = Except.ok r →
        r.2 = 0) ∧
    sqlchar_as_sqlwchar (std_env 4 (fun _ => true)) 8 ex_utf8 (some [255, 0]) SQL_NTS 0
      = Except.ok ({ out := some [(0, 1835008), (1, 0)], len := 1 }, 0) ∧
    sqlchar_as_sqlwchar (std_env 2 (fun _ => true)) 8 ex_utf8 (some [255, 0]) SQL_NTS 0
      = Except.ok ({ out := some [(0, 57024), (1, 56320), (2, 0)], len := 2 }, 0) ∧
    sqlchar_as_sqlwchar (std_env 4 (fun _ => true)) 8 ex_ascii (some [255, 0]) SQL_NTS 0
      = Except.ok ({ out := some [(0, 63), (1, 0)], len := 1 }, 1) := by
  refine ⟨?_, by decide, by decide, by decide⟩
  intro dec enc16 width fuel r h
  exact sqlchar_as_sqlwchar_utf8_errors _ fuel ex_utf8 _ _ 0 r rfl h

/-! ## Wide string utilities -/

/-- C14: `sqlwcharcasecmp` subtracts 32 from every unit that is at least `a`,
not only from `a`..`z`: it reports the strings "{" and "[" equal (0), and
likewise "~" and "^", although the units differ and neither is a letter.  On
"ABC" against "abc" it gives 0 and on "abc" against "abd" it gives 1. -/
theorem sqlwcharcasecmp_folds_punctuation :
    sqlwcharcasecmp [123, 0] [91, 0] = 0 ∧
    sqlwcharcasecmp [126, 0] [94, 0] = 0 ∧
    sqlwcharcasecmp [65, 66, 67, 0] [97, 98, 99, 0] = 0 ∧
    sqlwcharcasecmp [97, 98, 99, 0] [97, 98, 100, 0] = 1 := by
  refine ⟨by decide, by decide, by decide, by decide⟩

/-- C16: with `dest` the string "x" in a larger buffer, `src` = "abc" and
`*n = 2`, `sqlwcharncat2` copies `a` and `b`, overwrites `b` with the
terminator and returns 2, while `dest` has become "xa": its length grew by
1.  With `*n = 4` the whole of `src` fits and the value returned, 3, is the
growth. -/
theorem sqlwcharncat2_return_counts_overwritten_unit :
    sqlwcharncat2 [120, 0, 7, 7, 7, 7] [97, 98, 99, 0] (some 2)
      = { ret := 2, n := some 0, stores := [(1, 97), (2, 98), (2, 0)] } ∧
    buffer_contents (memOf [120, 0, 7, 7, 7, 7]) [(1, 97), (2, 98), (2, 0)] 6
      = [120, 97, 0, 7, 7, 7] ∧
    sqlwcharlen (some [120, 97, 0, 7, 7, 7]) - sqlwcharlen (some [120, 0, 7, 7, 7, 7]) = 1 ∧
    sqlwcharncat2 [120, 0, 7, 7, 7, 7] [97, 98, 99, 0] (some 4)
      = { ret := 3, n := some 0, stores := [(1, 97), (2, 98), (3, 99), (4, 0)] } := by
  refine ⟨by decide, by decide, by decide, by decide⟩

/-- C18: for `v = 0` neither loop of `sqlwcharfromul` runs: the only store is
the terminator at index 0, so the buffer holds the empty string and not the
digit `0`.  For `v = 123` the stores are the terminator at index 3 and the
digits `3`, `2`, `1` at indices 2, 1, 0. -/
theorem sqlwcharfromul_zero_is_empty :
    sqlwcharfromul 0 = [(0, 0)] ∧
    buffer_contents (fun _ => 7) (sqlwcharfromul 0) 2 = [0, 7] ∧
    sqlwcharfromul 123 = [(3, 0), (2, 51), (1, 50), (0, 49)] ∧
    buffer_contents (fun _ => 7) (sqlwcharfromul 123) 5 = [49, 50, 51, 0, 7] := by
  refine ⟨by decide, by decide, by decide, by decide⟩

/-- C19: on the buffer `a`, terminator, `b` and the unit `b`, the loop of
`sqlwcharchr` steps over the terminator (`*wstr++` has already advanced when
it reads zero), line 510 reads the unit after the terminator, and the
position returned is 2, past the terminator, and not `NULL`.  A unit found
before the terminator, and the terminator itself, are found at their first
position; a unit that is absent before and after the terminator gives
`NULL`. -/
theorem sqlwcharchr_reads_past_terminator :
    sqlwcharchr [97, 0, 98] 98 = some 2 ∧
    sqlwcharchr [97, 98, 0, 98] 98 = some 1 ∧
    sqlwcharchr [97, 98, 0, 98] 0 = some 2 ∧
    sqlwcharchr [97, 98, 0, 98] 99 = none := by
  refine ⟨by decide, by decide, by decide, by decide⟩

/-! ## Reading a buffer back -/

theorem load_append_singleton (init : Mem) (ss : List (Nat × Nat)) (i v j : Nat) :
    load init (ss ++ [(i, v)]) j = if j = i then v else load init ss j := by
  unfold load
  rw [List.reverse_append]
  simp only [List.reverse_cons, List.reverse_nil, List.nil_append, List.singleton_append,
    List.find?_cons]
  by_cases h : j = i
  · subst h
    simp
  · have h' : ((i == j) = false) := by
      simp only [beq_eq_false_iff_ne, ne_eq]
      exact fun e => h e.symm
    rw [if_neg h]
    simp only [h']

theorem load_nil (init : Mem) (j : Nat) : load init [] j = init j := by
  simp [load]

theorem load_storesAt (init : Mem) (base : Nat) (l : List Nat) (j : Nat) :
    load init (storesAt base l) j
      = if base ≤ j ∧ j < base + l.length then l.getD (j - base) 0 else init j := by
  induction l using List.reverseRecOn with
  | nil =>
    rw [storesAt, load_nil, if_neg]
    simp only [List.length_nil]
    omega
  | append_singleton l x ih =>
    rw [storesAt_append, storesAt, storesAt, load_append_singleton, ih]
    simp only [List.length_append, List.length_singleton]
    by_cases h1 : j = base + l.length
    · rw [if_pos h1, if_pos (by omega)]
      rw [List.getD_append_right _ _ _ _ (by omega)]
      have : j - base - l.length = 0 := by omega
      rw [this]
      rfl
    · rw [if_neg h1]
      by_cases h2 : base ≤ j ∧ j < base + l.length
      · rw [if_pos h2, if_pos (by omega), List.getD_append _ _ _ _ (by omega)]
      · rw [if_neg h2, if_neg (by omega)]

theorem count_to_terminator_append (u rest : List Nat) (hu : ∀ c ∈ u, c ≠ 0) :
    count_to_terminator (u ++ 0 :: rest) = u.length := by
  induction u with
  | nil => simp [count_to_terminator]
  | cons c cs ih =>
    have hc : c ≠ 0 := hu c (List.mem_cons_self _ _)
    show (if c ≠ 0 then count_to_terminator (cs ++ 0 :: rest) + 1 else 0) = (c :: cs).length
    rw [if_pos hc, ih (fun c' hc' => hu c' (List.mem_cons_of_mem _ hc')), List.length_cons]

theorem memOf_append_left (u rest : List Nat) (j : Nat) (h : j < u.length) :
    memOf (u ++ rest) j = u.getD j 0 := by
  unfold memOf
  exact List.getD_append _ _ _ _ h

theorem memOf_terminator (u rest : List Nat) : memOf (u ++ 0 :: rest) u.length = 0 := by
  unfold memOf
  rw [List.getD_append_right _ _ _ _ (le_refl _)]
  simp

/-! ## `sqlwcharncat2` -/

theorem sqlwcharncat2_loop_spec (su srest : List Nat) (hsu : ∀ c ∈ su, c ≠ 0) :
    ∀ (n dest : Nat) (ss : List (Nat × Nat)),
      sqlwcharncat2_loop (su ++ 0 :: srest) n dest ss
        = (n - min su.length n, dest + min su.length n,
            ss ++ storesAt dest (su.take (min su.length n))) := by
  induction su with
  | nil =>
    intro n dest ss
    simp [sqlwcharncat2_loop, storesAt]
  | cons c cs ih =>
    intro n dest ss
    have hc : c ≠ 0 := hsu c (List.mem_cons_self _ _)
    have ih' := ih (fun c' hc' => hsu c' (List.mem_cons_of_mem _ hc'))
    by_cases hn : n = 0
    · subst hn
      simp [sqlwcharncat2_loop, storesAt]
    · have hcond : c ≠ 0 ∧ n ≠ 0 := ⟨hc, hn⟩
      have hmin : min (cs.length + 1) n = min cs.length (n - 1) + 1 := by omega
      show (if c ≠ 0 ∧ n ≠ 0 then
          sqlwcharncat2_loop (cs ++ 0 :: srest) (n - 1) (dest + 1) (ss ++ [(dest, c)])
        else (n, dest, ss)) = _
      rw [if_pos hcond, ih']
      simp only [List.length_cons, hmin, List.take_succ_cons, storesAt, List.append_assoc,
        List.singleton_append]
      refine Prod.ext ?_ (Prod.ext ?_ rfl)
      · simp only
        omega
      · simp only
        omega

/-- C15: for a buffer that holds the string `du` (then its terminator and
anything), a source that holds the string `su`, and `*n = n0 ≥ 1`, after
`sqlwcharncat2` the buffer holds `du` unchanged, then the first
`min su.length (n0 - 1)` units of `su`, then a zero; every store is at an
offset from `du.length` up to, not including, `du.length + n0`; and `*n` is
`n0` less the units appended and one for the terminator.  With `n` null or
`*n = 0` it stores nothing and returns 0. -/
theorem sqlwcharncat2_appends (du drest su srest : List Nat) (n0 : Nat)
    (hdu : ∀ c ∈ du, c ≠ 0) (hsu : ∀ c ∈ su, c ≠ 0) (hn : 1 ≤ n0) :
    (∀ j, j < du.length →
      load (memOf (du ++ 0 :: drest))
        (sqlwcharncat2 (du ++ 0 :: drest) (su ++ 0 :: srest) (some n0)).stores j
        = du.getD j 0) ∧
    (∀ j, j < min su.length (n0 - 1) →
      load (memOf (du ++ 0 :: drest))
        (sqlwcharncat2 (du ++ 0 :: drest) (su ++ 0 :: srest) (some n0)).stores (du.length + j)
        = su.getD j 0) ∧
    load (memOf (du ++ 0 :: drest))
        (sqlwcharncat2 (du ++ 0 :: drest) (su ++ 0 :: srest) (some n0)).stores
        (du.length + min su.length (n0 - 1)) = 0 ∧
    (∀ p ∈ (sqlwcharncat2 (du ++ 0 :: drest) (su ++ 0 :: srest) (some n0)).stores,
      du.length ≤ p.1 ∧ p.1 < du.length + n0) ∧
    (sqlwcharncat2 (du ++ 0 :: drest) (su ++ 0 :: srest) (some n0)).n
      = some (n0 - (min su.length (n0 - 1) + 1)) ∧
    sqlwcharncat2 (du ++ 0 :: drest) (su ++ 0 :: srest) none
      = { ret := 0, n := none, stores := [] } ∧
    sqlwcharncat2 (du ++ 0 :: drest) (su ++ 0 :: srest) (some 0)
      = { ret := 0, n := some 0, stores := [] } := by
  have hlen : sqlwcharlen (some (du ++ 0 :: drest)) = du.length :=
    count_to_terminator_append du drest hdu
  have hn0 : ¬ n0 = 0 := by omega
  by_cases hfit : su.length < n0
  · -- the whole of `su` fits
    have hmin : min su.length n0 = su.length := by omega
    have ha : min su.length (n0 - 1) = su.length := by omega
    have hr : sqlwcharncat2 (du ++ 0 :: drest) (su ++ 0 :: srest) (some n0)
        = { ret := su.length, n := some (n0 - su.length - 1),
            stores := storesAt du.length su ++ [(du.length + su.length, 0)] } := by
      simp only [sqlwcharncat2, if_neg hn0, sqlwcharncat2_loop_spec su srest hsu, hlen, hmin,
        List.take_length, List.nil_append]
      rw [if_pos (by omega)]
      simp
    rw [hr, ha]
    refine ⟨?_, ?_, ?_, ?_, ?_, rfl, rfl⟩
    · intro j hj
      rw [load_append_singleton, if_neg (by omega), load_storesAt, if_neg (by omega)]
      exact memOf_append_left _ _ _ hj
    · intro j hj
      rw [load_append_singleton, if_neg (by omega), load_storesAt, if_pos (by omega)]
      simp
    · rw [load_append_singleton, if_pos rfl]
    · intro p hp
      rcases List.mem_append.1 hp with hp | hp
      · have := mem_storesAt _ _ _ hp
        omega
      · simp only [List.mem_singleton] at hp
        subst hp
        simp only
        omega
    · simp only [Option.some.injEq]
      omega
  · -- `su` is cut after `n0` units and the last of them is overwritten
    have hmin : min su.length n0 = n0 := by omega
    have ha : min su.length (n0 - 1) = n0 - 1 := by omega
    have htake : (su.take n0).length = n0 := by
      rw [List.length_take]
      omega
    have hr : sqlwcharncat2 (du ++ 0 :: drest) (su ++ 0 :: srest) (some n0)
        = { ret := n0, n := some 0,
            stores := storesAt du.length (su.take n0) ++ [(du.length + n0 - 1, 0)] } := by
      simp only [sqlwcharncat2, if_neg hn0, sqlwcharncat2_loop_spec su srest hsu, hlen, hmin,
        List.nil_append]
      rw [if_neg (by omega)]
      simp
    rw [hr, ha]
    refine ⟨?_, ?_, ?_, ?_, ?_, rfl, rfl⟩
    · intro j hj
      rw [load_append_singleton, if_neg (by omega), load_storesAt, if_neg (by omega)]
      exact memOf_append_left _ _ _ hj
    · intro j hj
      rw [load_append_singleton, if_neg (by omega), load_storesAt, if_pos (by omega)]
      have : du.length + j - du.length = j := by omega
      rw [this, List.getD_eq_getElem?_getD, List.getElem?_take_of_lt (by omega),
        ← List.getD_eq_getElem?_getD]
    · rw [load_append_singleton, if_pos (by omega)]
    · intro p hp
      rcases List.mem_append.1 hp with hp | hp
      · have := mem_storesAt _ _ _ hp
        omega
      · simp only [List.mem_singleton] at hp
        subst hp
        simp only
        omega
    · simp only [Option.some.injEq]
      omega

/-- Witness of C15: "x" in a buffer of six units, the source "abc" and
`*n = 2`: one unit is appended, the terminator follows it at offset 2 and `*n`
becomes 0. -/
theorem sqlwcharncat2_appends_witness :
    load (memOf [120, 0, 7, 7, 7, 7])
        (sqlwcharncat2 [120, 0, 7, 7, 7, 7] [97, 98, 99, 0] (some 2)).stores 2 = 0 ∧
    (sqlwcharncat2 [120, 0, 7, 7, 7, 7] [97, 98, 99, 0] (some 2)).n = some 0 ∧
    buffer_contents (memOf [120, 0, 7, 7, 7, 7])
        (sqlwcharncat2 [120, 0, 7, 7, 7, 7] [97, 98, 99, 0] (some 2)).stores 6
      = [120, 97, 0, 7, 7, 7] :=
  ⟨(sqlwcharncat2_appends [120] [7, 7, 7, 7] [97, 98, 99] [] 2 (by decide) (by decide)
      (by decide)).2.2.1,
   (sqlwcharncat2_appends [120] [7, 7, 7, 7] [97, 98, 99] [] 2 (by decide) (by decide)
      (by decide)).2.2.2.2.1,
   by decide⟩

/-! ## `sqlwchartoul` -/

theorem sqlwchartoul_loop_nondigit (ulong_mod : Nat) (mem : Mem) :
    ∀ (k : Nat) (pten : Int) (res : Nat), (∃ j, j < k ∧ (mem j < 48 ∨ 57 < mem j)) →
      sqlwchartoul_loop ulong_mod mem k pten res = 0 := by
  intro k
  induction k with
  | zero =>
    intro pten res h
    obtain ⟨j, hj, _⟩ := h
    omega
  | succ k ih =>
    intro pten res h
    by_cases hk : mem k < 48 ∨ 57 < mem k
    · simp only [sqlwchartoul_loop, if_pos hk]
    · simp only [sqlwchartoul_loop, if_neg hk]
      apply ih
      obtain ⟨j, hj, hnd⟩ := h
      have hjk : j ≠ k := by
        intro e
        subst e
        exact hk hnd
      exact ⟨j, by omega, hnd⟩

theorem decimal_value_append (a b : List Nat) :
    decimal_value (a ++ b) = decimal_value a * 10 ^ b.length + decimal_value b := by
  induction b using List.reverseRecOn with
  | nil => simp [decimal_value]
  | append_singleton b x ih =>
    have h1 : decimal_value (a ++ (b ++ [x])) = decimal_value (a ++ b) * 10 + (x - 48) := by
      simp [decimal_value, List.foldl_append]
    have h2 : decimal_value (b ++ [x]) = decimal_value b * 10 + (x - 48) := by
      simp [decimal_value, List.foldl_append]
    rw [h1, h2, ih, List.length_append, List.length_singleton, pow_succ]
    ring

theorem decimal_value_lt (l : List Nat) (hl : ∀ c ∈ l, 48 ≤ c ∧ c ≤ 57) :
    decimal_value l < 10 ^ l.length := by
  induction l using List.reverseRecOn with
  | nil => simp [decimal_value]
  | append_singleton l x ih =>
    have hx := hl x (by simp)
    have ih' := ih (fun c hc => hl c (by simp [hc]))
    rw [decimal_value_append, List.length_append, List.length_singleton, pow_succ]
    have h1 : decimal_value [x] = x - 48 := by simp [decimal_value]
    rw [h1]
    omega

theorem toS32_of_small (x : Int) (h0 : 0 ≤ x) (h1 : x < 2147483648) : toS32 x = x := by
  unfold toS32
  rw [Int.emod_eq_of_lt (by omega) (by omega)]
  omega

theorem sqlwchartoul_term (ulong_mod c P : Nat) (hc1 : 48 ≤ c) (hc2 : c ≤ 57)
    (hP : P ≤ 100000000) (hM : 4294967296 ≤ ulong_mod) :
    ((toS32 (((c : Int) - 48) * (P : Int))) % (ulong_mod : Int)).toNat = (c - 48) * P := by
  have hprod : (c - 48) * P ≤ 9 * 100000000 := Nat.mul_le_mul (by omega) hP
  have hcast : ((c : Int) - 48) * (P : Int) = (((c - 48) * P : Nat) : Int) := by
    push_cast [Nat.cast_sub hc1]
    ring
  rw [hcast, toS32_of_small _ (by positivity) (by omega),
    Int.emod_eq_of_lt (by positivity) (by omega)]
  exact Int.toNat_ofNat _

theorem sqlwchartoul_loop_value (ulong_mod : Nat) (mem : Mem) (hM : 4294967296 ≤ ulong_mod) :
    ∀ (pre suf : List Nat), (∀ j, j < pre.length → mem j = pre.getD j 0) →
      (∀ c ∈ pre, 48 ≤ c ∧ c ≤ 57) → (∀ c ∈ suf, 48 ≤ c ∧ c ≤ 57) →
      pre.length + suf.length ≤ 9 →
      sqlwchartoul_loop ulong_mod mem pre.length ((10 ^ suf.length : Nat) : Int)
          (decimal_value suf)
        = decimal_value (pre ++ suf) := by
  intro pre
  induction pre using List.reverseRecOn with
  | nil =>
    intro suf _ _ _ _
    simp [sqlwchartoul_loop]
  | append_singleton p c ih =>
    intro suf hmem hpre hsuf hlen
    simp only [List.length_append, List.length_singleton] at hlen hmem ⊢
    have hc := hpre c (by simp)
    have hmc : mem p.length = c := by
      rw [hmem p.length (by omega), List.getD_append_right _ _ _ _ (le_refl _)]
      simp
    have hnd : ¬ (mem p.length < 48 ∨ 57 < mem p.length) := by
      rw [hmc]
      omega
    have hsl : suf.length ≤ 8 := by omega
    have hP : 10 ^ suf.length ≤ 100000000 := by
      calc 10 ^ suf.length ≤ 10 ^ 8 := Nat.pow_le_pow_right (by norm_num) hsl
        _ = 100000000 := by norm_num
    have hval := decimal_value_lt suf hsuf
    have hpten : toS32 (((10 ^ suf.length : Nat) : Int) * 10)
        = ((10 ^ (c :: suf).length : Nat) : Int) := by
      rw [toS32_of_small _ (by positivity) (by omega), List.length_cons, pow_succ]
      push_cast
      ring
    have hprod : (c - 48) * 10 ^ suf.length ≤ 9 * 100000000 := Nat.mul_le_mul (by omega) hP
    have hres : (decimal_value suf
          + ((toS32 (((mem p.length : Int) - 48) * ((10 ^ suf.length : Nat) : Int)))
              % (ulong_mod : Int)).toNat) % ulong_mod
        = decimal_value (c :: suf) := by
      rw [hmc, sqlwchartoul_term ulong_mod c _ hc.1 hc.2 hP hM, Nat.mod_eq_of_lt (by omega)]
      have h1 : decimal_value (c :: suf) = decimal_value ([c] ++ suf) := rfl
      have h2 : decimal_value [c] = c - 48 := by simp [decimal_value]
      rw [h1, decimal_value_append, h2]
      omega
    simp only [sqlwchartoul_loop, if_neg hnd, hpten, hres]
    rw [ih (c :: suf)
      (fun j hj => by rw [hmem j (by omega), List.getD_append _ _ _ _ hj])
      (fun c' hc' => hpre c' (by simp [hc']))
      (fun c' hc' => by
        rcases List.mem_cons.1 hc' with h | h
        · rw [h]
          exact hc
        · exact hsuf c' h)
      (by simp only [List.length_cons]; omega)]
    simp

/-- C17: with `unsigned long` of at least 32 bits: for a string `w` of at most
9 units that are all digits `0`..`9`, `sqlwchartoul` gives the decimal value
of `w` (leading zeros allowed); for a string with a unit that is not a digit,
at any position and whatever its length, it gives 0; and for the empty string
and for `NULL` it gives 0. -/
theorem sqlwchartoul_spec (ulong_mod : Nat) (hM : 4294967296 ≤ ulong_mod) :
    (∀ w rest : List Nat, (∀ c ∈ w, 48 ≤ c ∧ c ≤ 57) → w.length ≤ 9 →
      sqlwchartoul ulong_mod (some (w ++ 0 :: rest)) = decimal_value w) ∧
    (∀ w rest : List Nat, (∀ c ∈ w, c ≠ 0) → (∃ c ∈ w, c < 48 ∨ 57 < c) →
      sqlwchartoul ulong_mod (some (w ++ 0 :: rest)) = 0) ∧
    (∀ rest : List Nat, sqlwchartoul ulong_mod (some (0 :: rest)) = 0) ∧
    sqlwchartoul ulong_mod none = 0 := by
  refine ⟨?_, ?_, ?_, rfl⟩
  · intro w rest hw hlen
    have hnz : ∀ c ∈ w, c ≠ 0 := fun c hc => by
      have := hw c hc
      omega
    have hl : sqlwcharlen (some (w ++ 0 :: rest)) = w.length :=
      count_to_terminator_append w rest hnz
    have := sqlwchartoul_loop_value ulong_mod (memOf (w ++ 0 :: rest)) hM w []
      (fun j hj => memOf_append_left _ _ _ hj) hw (by simp) (by simpa using hlen)
    simp only [List.length_nil, pow_zero, Nat.cast_one, List.append_nil] at this
    simp only [sqlwchartoul, hl]
    exact this
  · intro w rest hnz hnd
    have hl : sqlwcharlen (some (w ++ 0 :: rest)) = w.length :=
      count_to_terminator_append w rest hnz
    simp only [sqlwchartoul, hl]
    apply sqlwchartoul_loop_nondigit
    obtain ⟨c, hc, hcnd⟩ := hnd
    obtain ⟨j, hj, hjc⟩ := List.getElem_of_mem hc
    refine ⟨j, hj, ?_⟩
    rw [memOf_append_left _ _ _ hj, List.getD_eq_getElem?_getD, List.getElem?_eq_getElem hj]
    simpa [hjc] using hcnd
  · intro rest
    rfl

/-- Witness of C17: with a 32-bit `unsigned long`, "123" gives 123 and "12a"
gives 0. -/
theorem sqlwchartoul_spec_witness :
    sqlwchartoul 4294967296 (some [49, 50, 51, 0]) = 123 ∧
    sqlwchartoul 4294967296 (some [49, 50, 97, 0]) = 0 :=
  ⟨(sqlwchartoul_spec 4294967296 (by decide)).1 [49, 50, 51] [] (by decide) (by decide),
   (sqlwchartoul_spec 4294967296 (by decide)).2.1 [49, 50, 97] [] (by decide)
     ⟨97, by decide, by decide⟩⟩

/-! ## Termination of `copy_and_convert` -/

theorem conv_run_succ (to_cs from_cs : CHARSET_INFO) (mem : Mem) (from_end to_end n : Nat)
    (lbl : Label) (st : ConvState) :
    conv_run to_cs from_cs mem from_end to_end (n + 1) lbl st
      = match conv_step to_cs from_cs mem from_end to_end lbl st with
        | Sum.inl (lbl', st') => conv_run to_cs from_cs mem from_end to_end n lbl' st'
        | Sum.inr st' => some st' := by
  cases lbl with
  | loop_head =>
    simp only [conv_run, conv_step]
    split
    · rfl
    · split
      · rfl
      · split <;> rfl
  | outp wc r =>
    simp only [conv_run, conv_step]
    split
    · rfl
    · split <;> rfl

theorem conv_step_loop_head (to_cs from_cs : CHARSET_INFO) (mem : Mem) (from_end to_end : Nat)
    (hdec : DecoderBounded from_cs mem from_end) (st : ConvState)
    (hpos : st.from_pos ≤ from_end) :
    (∃ s, conv_step to_cs from_cs mem from_end to_end Label.loop_head st = Sum.inr s) ∨
    (∃ wc r st', conv_step to_cs from_cs mem from_end to_end Label.loop_head st
        = Sum.inl (Label.outp wc r, st') ∧
      st.from_pos + 1 ≤ st'.from_pos ∧ st'.from_pos ≤ from_end) := by
  obtain ⟨hend, hposr, hneg⟩ := hdec st.from_pos
  simp only [conv_step]
  split
  · rename_i h
    right
    refine ⟨_, _, _, rfl, ?_, hposr h⟩
    show st.from_pos + 1 ≤ st.from_pos + (from_cs.mb_wc mem st.from_pos from_end).1.toNat
    omega
  · split
    · rename_i h0 hil
      right
      refine ⟨_, _, _, rfl, le_refl _, ?_⟩
      show st.from_pos + 1 ≤ from_end
      by_contra hcon
      have := hend (by omega)
      rw [hil] at this
      simp [MY_CS_ILSEQ, MY_CS_TOOSMALL] at this
    · split
      · rename_i h0 hil hts
        right
        have hlt : (from_cs.mb_wc mem st.from_pos from_end).1 < 0 := by
          simp only [MY_CS_ILSEQ] at hil
          omega
        refine ⟨_, _, _, rfl, ?_, hneg hts hlt⟩
        show st.from_pos + 1 ≤ st.from_pos + (-(from_cs.mb_wc mem st.from_pos from_end).1).toNat
        omega
      · left
        exact ⟨_, rfl⟩

theorem conv_step_outp (to_cs from_cs : CHARSET_INFO) (mem : Mem) (from_end to_end : Nat)
    (wc : Nat) (r : Int) (st : ConvState) :
    (∃ s, conv_step to_cs from_cs mem from_end to_end (Label.outp wc r) st = Sum.inr s) ∨
    (∃ st', conv_step to_cs from_cs mem from_end to_end (Label.outp wc r) st
        = Sum.inl (Label.loop_head, st') ∧ st'.from_pos = st.from_pos) ∨
    (wc ≠ 63 ∧ ∃ st', conv_step to_cs from_cs mem from_end to_end (Label.outp wc r) st
        = Sum.inl (Label.outp 63 r, st') ∧ st'.from_pos = st.from_pos) := by
  simp only [conv_step]
  split
  · right
    left
    exact ⟨_, rfl, rfl⟩
  · split
    · rename_i h
      right
      right
      exact ⟨h.2, _, rfl, rfl⟩
    · left
      exact ⟨_, rfl⟩

theorem conv_run_terminates (to_cs from_cs : CHARSET_INFO) (mem : Mem) (from_end to_end : Nat)
    (hdec : DecoderBounded from_cs mem from_end) :
    ∀ (fuel : Nat) (lbl : Label) (st : ConvState), st.from_pos ≤ from_end →
      lbl.src_measure (from_end - st.from_pos) ≤ fuel →
      ∃ st', conv_run to_cs from_cs mem from_end to_end fuel lbl st = some st' := by
  intro fuel
  induction fuel with
  | zero =>
    intro lbl st _ hf
    cases lbl with
    | loop_head => simp [Label.src_measure] at hf
    | outp wc r =>
      simp only [Label.src_measure] at hf
      split at hf <;> omega
  | succ n ih =>
    intro lbl st hpos hf
    rw [conv_run_succ]
    cases lbl with
    | loop_head =>
      simp only [Label.src_measure] at hf
      rcases conv_step_loop_head to_cs from_cs mem from_end to_end hdec st hpos with
        ⟨s, hs⟩ | ⟨wc, r, st', hs, hadv, hle⟩
      · rw [hs]
        exact ⟨s, rfl⟩
      · rw [hs]
        refine ih _ _ hle ?_
        simp only [Label.src_measure]
        split <;> omega
    | outp wc r =>
      rcases conv_step_outp to_cs from_cs mem from_end to_end wc r st with
        ⟨s, hs⟩ | ⟨st', hs, heq⟩ | ⟨hwc, st', hs, heq⟩
      · rw [hs]
        exact ⟨s, rfl⟩
      · rw [hs]
        refine ih _ _ (by omega) ?_
        simp only [Label.src_measure] at hf ⊢
        rw [heq]
        split at hf <;> omega
      · rw [hs]
        refine ih _ _ (by omega) ?_
        simp only [Label.src_measure, if_neg hwc, if_true] at hf ⊢
        rw [heq]
        omega

theorem conv_passes_le (to_cs from_cs : CHARSET_INFO) (mem : Mem) (from_end to_end : Nat)
    (hdec : DecoderBounded from_cs mem from_end) :
    ∀ (fuel : Nat) (lbl : Label) (st : ConvState), st.from_pos ≤ from_end →
      conv_passes to_cs from_cs mem from_end to_end fuel lbl st
        ≤ from_end - st.from_pos + 1 := by
  intro fuel
  induction fuel with
  | zero =>
    intro lbl st _
    simp [conv_passes]
  | succ n ih =>
    intro lbl st hpos
    cases lbl with
    | loop_head =>
      simp only [conv_passes]
      rcases conv_step_loop_head to_cs from_cs mem from_end to_end hdec st hpos with
        ⟨s, hs⟩ | ⟨wc, r, st', hs, hadv, hle⟩
      · simp only [hs]
        omega
      · have := ih (Label.outp wc r) st' hle
        simp only [hs]
        omega
    | outp wc r =>
      simp only [conv_passes]
      rcases conv_step_outp to_cs from_cs mem from_end to_end wc r st with
        ⟨s, hs⟩ | ⟨st', hs, heq⟩ | ⟨hwc, st', hs, heq⟩
      · simp only [hs]
        omega
      · have := ih Label.loop_head st' (by omega)
        simp only [hs]
        omega
      · have := ih (Label.outp 63 r) st' (by omega)
        simp only [hs]
        omega

/-- C20: when the source decoder reports "too small" once no source byte
remains and never reports a sequence longer than the bytes that remain,
`copy_and_convert` returns (fuel `3 * from_length + 1` is enough); control is
at the head of `while (1)` at most `from_length + 1` times; a pass from the
head either stops or arrives at `outp` with `from` advanced by at least one
byte and not beyond the end; and from `outp` the code stops, goes back to the
head, or, only for a code point other than `?`, jumps once more to `outp`
with `?`, from where it can only stop or go back to the head. -/
theorem copy_and_convert_terminates (to_cs from_cs : CHARSET_INFO) (from_mem : Mem)
    (from_length to_length errors : Nat)
    (hdec : DecoderBounded from_cs from_mem from_length) :
    (∀ fuel, 3 * from_length + 1 ≤ fuel →
      ∃ r, copy_and_convert fuel to_length to_cs from_mem from_length from_cs errors = some r) ∧
    (∀ fuel, conv_passes to_cs from_cs from_mem from_length to_length fuel Label.loop_head
      conv_init ≤ from_length + 1) ∧
    (∀ st : ConvState, st.from_pos ≤ from_length →
      (∃ s, conv_step to_cs from_cs from_mem from_length to_length Label.loop_head st
        = Sum.inr s) ∨
      (∃ wc r st', conv_step to_cs from_cs from_mem from_length to_length Label.loop_head st
          = Sum.inl (Label.outp wc r, st') ∧
        st.from_pos + 1 ≤ st'.from_pos ∧ st'.from_pos ≤ from_length)) ∧
    (∀ (wc : Nat) (r : Int) (st : ConvState),
      (∃ s, conv_step to_cs from_cs from_mem from_length to_length (Label.outp wc r) st
        = Sum.inr s) ∨
      (∃ st', conv_step to_cs from_cs from_mem from_length to_length (Label.outp wc r) st
          = Sum.inl (Label.loop_head, st') ∧ st'.from_pos = st.from_pos) ∨
      (wc ≠ 63 ∧ ∃ st', conv_step to_cs from_cs from_mem from_length to_length
          (Label.outp wc r) st = Sum.inl (Label.outp 63 r, st') ∧
        st'.from_pos = st.from_pos)) := by
  refine ⟨?_, ?_, ?_, ?_⟩
  · intro fuel hfuel
    obtain ⟨st, hst⟩ := conv_run_terminates to_cs from_cs from_mem from_length to_length hdec
      fuel Label.loop_head conv_init (by simp [conv_init])
      (by simp only [Label.src_measure, conv_init]; omega)
    rw [copy_and_convert, hst]
    exact ⟨_, rfl⟩
  · intro fuel
    have := conv_passes_le to_cs from_cs from_mem from_length to_length hdec fuel
      Label.loop_head conv_init (by simp [conv_init])
    simpa [conv_init] using this
  · intro st hpos
    exact conv_step_loop_head to_cs from_cs from_mem from_length to_length hdec st hpos
  · intro wc r st
    exact conv_step_outp to_cs from_cs from_mem from_length to_length wc r st

theorem ex_utf8_decoder_bounded (mem : Mem) (e : Nat) : DecoderBounded ex_utf8 mem e := by
  intro s
  simp only [ex_utf8, ex_utf8_mb_wc, MY_CS_TOOSMALL, MY_CS_ILSEQ]
  refine ⟨?_, ?_, ?_⟩
  · intro h
    rw [if_pos h]
  · split_ifs <;> omega
  · split_ifs <;> simp

/-- Witness of C20: the UTF-8 source `FF 61` of two bytes, destination the
7-bit charset with four bytes of room: with fuel 7 the call returns. -/
theorem copy_and_convert_terminates_witness :
    ∃ r, copy_and_convert 7 4 ex_ascii (memOf [255, 97]) 2 ex_utf8 0 = some r :=
  (copy_and_convert_terminates ex_ascii ex_utf8 (memOf [255, 97]) 2 4 0
    (ex_utf8_decoder_bounded _ _)).1 7 (by decide)

/-! ## The round trip of an ASCII string -/

theorem sqlwcharfromul_count_eq :
    ∀ (f v c : Nat), v ≤ f → sqlwcharfromul_count f v c = c + (Nat.digits 10 v).length := by
  intro f
  induction f with
  | zero =>
    intro v c hv
    have : v = 0 := by omega
    subst this
    simp [sqlwcharfromul_count]
  | succ f ih =>
    intro v c hv
    by_cases h0 : 0 < v
    · simp only [sqlwcharfromul_count, if_pos h0]
      rw [ih (v / 10) (c + 1) (by omega), Nat.digits_def' (by norm_num) h0, List.length_cons]
      omega
    · have : v = 0 := by omega
      subst this
      simp [sqlwcharfromul_count]

theorem sqlwcharfromul_digits_load (init : Mem) :
    ∀ (f v chars : Nat) (ss : List (Nat × Nat)) (i : Nat), v ≤ f →
      (Nat.digits 10 v).length ≤ chars →
      load init (sqlwcharfromul_digits f v chars ss) i
        = if chars - (Nat.digits 10 v).length ≤ i ∧ i < chars then
            48 + (Nat.digits 10 v).getD (chars - 1 - i) 0
          else load init ss i := by
  intro f
  induction f with
  | zero =>
    intro v chars ss i hv _
    have : v = 0 := by omega
    subst this
    simp only [sqlwcharfromul_digits, Nat.digits_zero, List.length_nil, Nat.sub_zero]
    rw [if_neg (by omega)]
  | succ f ih =>
    intro v chars ss i hv hlen
    by_cases h0 : 0 < v
    · have hd : Nat.digits 10 v = v % 10 :: Nat.digits 10 (v / 10) :=
        Nat.digits_def' (by norm_num) h0
      rw [hd, List.length_cons] at hlen
      simp only [sqlwcharfromul_digits, if_pos h0]
      rw [ih (v / 10) (chars - 1) _ i (by omega) (by omega), load_append_singleton, hd,
        List.length_cons]
      by_cases h1 : i = chars - 1
      · subst h1
        rw [if_neg (by omega), if_pos rfl, if_pos (by omega)]
        have : chars - 1 - (chars - 1) = 0 := by omega
        rw [this, List.getD_cons_zero]
      · rw [if_neg h1]
        by_cases h2 : chars - 1 - (Nat.digits 10 (v / 10)).length ≤ i ∧ i < chars - 1
        · rw [if_pos h2, if_pos (by omega)]
          have : chars - 1 - i = (chars - 1 - 1 - i) + 1 := by omega
          rw [this, List.getD_cons_succ]
        · rw [if_neg h2, if_neg (by omega)]
    · have : v = 0 := by omega
      subst this
      simp only [sqlwcharfromul_digits, Nat.digits_zero, List.length_nil, Nat.sub_zero,
        Nat.lt_irrefl, if_false]
      rw [if_neg (by omega)]

theorem sqlwcharfromul_numeral (init : Mem) (v : Nat) :
    buffer_contents init (sqlwcharfromul v) ((Nat.digits 10 v).length + 1)
      = (Nat.digits 10 v).reverse.map (fun d => 48 + d) ++ [0] := by
  have hcount : sqlwcharfromul_count v v 0 = (Nat.digits 10 v).length := by
    rw [sqlwcharfromul_count_eq v v 0 (le_refl _), Nat.zero_add]
  apply List.ext_getElem
  · simp [buffer_contents]
  · intro i h1 h2
    simp only [buffer_contents, List.getElem_map, List.getElem_range]
    simp only [List.length_append, List.length_map, List.length_reverse,
      List.length_singleton] at h2
    unfold sqlwcharfromul
    rw [hcount, sqlwcharfromul_digits_load init v v _ _ i (le_refl _) (le_refl _)]
    by_cases hi : i < (Nat.digits 10 v).length
    · rw [if_pos (by omega)]
      rw [List.getElem_append_left (by simpa using hi), List.getElem_map,
        List.getElem_reverse, List.getD_eq_getElem?_getD,
        List.getElem?_eq_getElem (by omega)]
      rfl
    · have hie : i = (Nat.digits 10 v).length := by omega
      subst hie
      rw [if_neg (by omega), List.getElem_append_right (by simp)]
      simp [load]

/-! ## Illegal sequences in `copy_and_convert` -/

theorem conv_run_error_count (to_cs from_cs : CHARSET_INFO) (mem : Mem) (from_end to_end : Nat) :
    ∀ (fuel : Nat) (lbl : Label) (st st' : ConvState),
      conv_run to_cs from_cs mem from_end to_end fuel lbl st = some st' →
      st'.error_count % 4294967296
        = (st.error_count
            + ((conv_visited to_cs from_cs mem from_end to_end fuel lbl st).countP
                (conv_is_illegal from_cs mem from_end)
              + (conv_visited to_cs from_cs mem from_end to_end fuel lbl st).countP
                (conv_is_unmappable from_cs mem from_end)
              + (conv_visited to_cs from_cs mem from_end to_end fuel lbl st).countP
                (conv_is_unrepresentable to_cs to_end))) % 4294967296 := by
  intro fuel
  induction fuel with
  | zero =>
    intro lbl st st' h
    simp [conv_run] at h
  | succ n ih =>
    intro lbl st st' h
    rw [conv_run_succ] at h
    simp only [conv_visited, List.countP_cons]
    cases lbl with
    | loop_head =>
      simp only [conv_step] at h ⊢
      simp only [conv_is_illegal, conv_is_unmappable, conv_is_unrepresentable]
      by_cases h1 : 0 < (from_cs.mb_wc mem st.from_pos from_end).1
      · simp only [if_pos h1] at h ⊢
        have := ih _ _ _ h
        have e1 : ¬ ((from_cs.mb_wc mem st.from_pos from_end).1 = MY_CS_ILSEQ) := by
          simp only [MY_CS_ILSEQ]; omega
        have e2 : ¬ ((from_cs.mb_wc mem st.from_pos from_end).1 < 0 ∧
            MY_CS_TOOSMALL < (from_cs.mb_wc mem st.from_pos from_end).1) := by omega
        simp only [e1, e2, decide_False, Bool.false_eq_true, if_false, Nat.add_zero]
        simp only at this
        omega
      · by_cases h2 : (from_cs.mb_wc mem st.from_pos from_end).1 = MY_CS_ILSEQ
        · simp only [if_neg h1, if_pos h2] at h ⊢
          have := ih _ _ _ h
          have e3 : decide (MY_CS_ILSEQ < 0 ∧ MY_CS_TOOSMALL < MY_CS_ILSEQ) = false := by
            decide
          simp only [h2, e3, decide_True, Bool.false_eq_true, if_false, if_true, Nat.add_zero]
          simp only [h2] at this
          omega
        · by_cases h3 : MY_CS_TOOSMALL < (from_cs.mb_wc mem st.from_pos from_end).1
          · simp only [if_neg h1, if_neg h2, if_pos h3] at h ⊢
            have := ih _ _ _ h
            have e2 : (from_cs.mb_wc mem st.from_pos from_end).1 < 0 ∧
                MY_CS_TOOSMALL < (from_cs.mb_wc mem st.from_pos from_end).1 := by
              simp only [MY_CS_ILSEQ] at h2
              exact ⟨by omega, h3⟩
            simp only [h2, e2, decide_True, decide_False, Bool.false_eq_true, if_false, if_true,
              Nat.add_zero, and_self]
            simp only at this
            omega
          · simp only [if_neg h1, if_neg h2, if_neg h3] at h ⊢
            simp only [Option.some.injEq] at h
            subst h
            have e2 : ¬ ((from_cs.mb_wc mem st.from_pos from_end).1 < 0 ∧
                MY_CS_TOOSMALL < (from_cs.mb_wc mem st.from_pos from_end).1) := by
              intro hh; exact h3 hh.2
            simp [h2, e2]
    | outp wc r =>
      simp only [conv_step] at h ⊢
      simp only [conv_is_illegal, conv_is_unmappable, conv_is_unrepresentable]
      by_cases h1 : 0 < (to_cs.wc_mb wc st.to_pos to_end).1
      · simp only [if_pos h1] at h ⊢
        have := ih _ _ _ h
        have e1 : ¬ ((to_cs.wc_mb wc st.to_pos to_end).1 = MY_CS_ILUNI ∧ wc ≠ 63) := by
          simp only [MY_CS_ILUNI]; omega
        simp only [e1, decide_False, Bool.false_eq_true, if_false, Nat.add_zero]
        simp only at this
        omega
      · by_cases h2 : (to_cs.wc_mb wc st.to_pos to_end).1 = MY_CS_ILUNI ∧ wc ≠ 63
        · simp only [if_neg h1, if_pos h2] at h ⊢
          have := ih _ _ _ h
          simp only [h2, decide_True, Bool.false_eq_true, if_false, if_true, Nat.add_zero,
            and_self, ne_eq, not_false_eq_true]
          simp only at this
          omega
        · simp only [if_neg h1, if_neg h2] at h ⊢
          simp only [Option.some.injEq] at h
          subst h
          simp [h2]

theorem conv_visited_subrun (to_cs from_cs : CHARSET_INFO) (mem : Mem) (from_end to_end : Nat) :
    ∀ (fuel : Nat) (lbl : Label) (st final : ConvState),
      conv_run to_cs from_cs mem from_end to_end fuel lbl st = some final →
      ∀ c ∈ conv_visited to_cs from_cs mem from_end to_end fuel lbl st,
        ∃ m, conv_run to_cs from_cs mem from_end to_end m c.1 c.2 = some final ∧
          ∀ c' ∈ conv_visited to_cs from_cs mem from_end to_end m c.1 c.2,
            c' ∈ conv_visited to_cs from_cs mem from_end to_end fuel lbl st := by
  intro fuel
  induction fuel with
  | zero =>
    intro lbl st final h
    simp [conv_run] at h
  | succ n ih =>
    intro lbl st final h c hc
    simp only [conv_visited, List.mem_cons] at hc
    rcases hc with hc | hc
    · subst hc
      exact ⟨n + 1, h, fun c' hc' => hc'⟩
    · rw [conv_run_succ] at h
      cases hstep : conv_step to_cs from_cs mem from_end to_end lbl st with
      | inl p =>
        obtain ⟨l', s'⟩ := p
        rw [hstep] at h hc
        simp only at h hc
        obtain ⟨m, hm, hsub⟩ := ih l' s' final h c hc
        refine ⟨m, hm, fun c' hc' => ?_⟩
        simp only [conv_visited, List.mem_cons, hstep]
        exact Or.inr (hsub c' hc')
      | inr s' =>
        rw [hstep] at hc
        simp at hc

/-- C4: with a destination encoder that respects its end offset (so that the
call returns, fuel `3 * to_length + 3`), the value `copy_and_convert` leaves in
`*errors` is the value on entry plus, in `uint` arithmetic, one for every
source position at which the loop met an illegal sequence, one for every
unmappable sequence and one for every unrepresentable code point.  For every
state in which the loop is at its head at an illegal sequence while the
encoder accepts `?` in the room left: the pass goes to `outp` with `?`,
`error_count` one more and `from` one byte further, the encoder's bytes for
U+003F are stored at `to`, the loop is at its head again in the state that
has these changes, one more character counted and `to` advanced, and the
stores of the call begin with the stores so far followed by that encoding of
`?`. -/
theorem copy_and_convert_illegal_sequence (to_cs from_cs : CHARSET_INFO) (mem : Mem)
    (from_length to_length errors fuel : Nat)
    (henc : EncoderRespectsEnd to_cs) (hfuel : 3 * to_length + 3 ≤ fuel) :
    ∃ r, copy_and_convert fuel to_length to_cs mem from_length from_cs errors = some r ∧
      r.errors
        = (errors
            + (copy_and_convert_visited fuel to_length to_cs mem from_length from_cs).countP
                (conv_is_illegal from_cs mem from_length)
            + (copy_and_convert_visited fuel to_length to_cs mem from_length from_cs).countP
                (conv_is_unmappable from_cs mem from_length)
            + (copy_and_convert_visited fuel to_length to_cs mem from_length from_cs).countP
                (conv_is_unrepresentable to_cs to_length)) % 4294967296 ∧
      ∀ st : ConvState,
        (Label.loop_head, st)
          ∈ copy_and_convert_visited fuel to_length to_cs mem from_length from_cs →
        (from_cs.mb_wc mem st.from_pos from_length).1 = MY_CS_ILSEQ →
        0 < (to_cs.wc_mb 63 st.to_pos to_length).1 →
        conv_step to_cs from_cs mem from_length to_length Label.loop_head st
          = Sum.inl (Label.outp 63 MY_CS_ILSEQ,
              { st with error_count := (st.error_count + 1) % 4294967296,
                        from_pos := st.from_pos + 1 }) ∧
        conv_step to_cs from_cs mem from_length to_length (Label.outp 63 MY_CS_ILSEQ)
            { st with error_count := (st.error_count + 1) % 4294967296,
                      from_pos := st.from_pos + 1 }
          = Sum.inl (Label.loop_head,
              { from_pos := st.from_pos + 1,
                to_pos := st.to_pos + (to_cs.wc_mb 63 st.to_pos to_length).1.toNat,
                used_bytes := toU32 (st.used_bytes + MY_CS_ILSEQ),
                used_chars := (st.used_chars + 1) % 4294967296,
                error_count := (st.error_count + 1) % 4294967296,
                stores := st.stores
                  ++ storesAt st.to_pos (to_cs.wc_mb 63 st.to_pos to_length).2 }) ∧
        (Label.loop_head,
            ({ from_pos := st.from_pos + 1,
               to_pos := st.to_pos + (to_cs.wc_mb 63 st.to_pos to_length).1.toNat,
               used_bytes := toU32 (st.used_bytes + MY_CS_ILSEQ),
               used_chars := (st.used_chars + 1) % 4294967296,
               error_count := (st.error_count + 1) % 4294967296,
               stores := st.stores
                 ++ storesAt st.to_pos (to_cs.wc_mb 63 st.to_pos to_length).2 } : ConvState))
          ∈ copy_and_convert_visited fuel to_length to_cs mem from_length from_cs ∧
        ∃ tail, r.stores
          = (st.stores ++ storesAt st.to_pos (to_cs.wc_mb 63 st.to_pos to_length).2) ++ tail := by
  obtain ⟨final, hrun, _, _⟩ :=
    conv_run_within to_cs from_cs mem from_length to_length henc fuel Label.loop_head
      conv_init (by simp [conv_init]) (by simp [conv_init])
      (by simp only [conv_init, Label.weight]; omega)
  have hcount := conv_run_error_count to_cs from_cs mem from_length to_length fuel
    Label.loop_head conv_init final hrun
  refine ⟨_, by rw [copy_and_convert, hrun], ?_, ?_⟩
  · simp only [copy_and_convert_visited]
    simp only [conv_init] at hcount ⊢
    omega
  · intro st hvis hdec hq
    have h0 : ¬ (0 : Int) < MY_CS_ILSEQ := by decide
    have hstep1 : conv_step to_cs from_cs mem from_length to_length Label.loop_head st
        = Sum.inl (Label.outp 63 MY_CS_ILSEQ,
            { st with error_count := (st.error_count + 1) % 4294967296,
                      from_pos := st.from_pos + 1 }) := by
      simp only [conv_step, hdec, if_neg h0, if_true]
    have hstep2 : conv_step to_cs from_cs mem from_length to_length (Label.outp 63 MY_CS_ILSEQ)
          { st with error_count := (st.error_count + 1) % 4294967296,
                    from_pos := st.from_pos + 1 }
        = Sum.inl (Label.loop_head,
            { from_pos := st.from_pos + 1,
              to_pos := st.to_pos + (to_cs.wc_mb 63 st.to_pos to_length).1.toNat,
              used_bytes := toU32 (st.used_bytes + MY_CS_ILSEQ),
              used_chars := (st.used_chars + 1) % 4294967296,
              error_count := (st.error_count + 1) % 4294967296,
              stores := st.stores
                ++ storesAt st.to_pos (to_cs.wc_mb 63 st.to_pos to_length).2 }) := by
      simp only [conv_step, if_pos hq]
    refine ⟨hstep1, hstep2, ?_, ?_⟩
    · obtain ⟨m, hm, hsub⟩ := conv_visited_subrun to_cs from_cs mem from_length to_length fuel
        Label.loop_head conv_init final hrun _ hvis
      simp only at hm hsub
      obtain ⟨m1, rfl⟩ : ∃ m1, m = m1 + 1 := by
        cases m with
        | zero => simp [conv_run] at hm
        | succ m1 => exact ⟨m1, rfl⟩
      rw [conv_run_succ, hstep1] at hm
      simp only at hm
      obtain ⟨m2, rfl⟩ : ∃ m2, m1 = m2 + 1 := by
        cases m1 with
        | zero => simp [conv_run] at hm
        | succ m2 => exact ⟨m2, rfl⟩
      rw [conv_run_succ, hstep2] at hm
      simp only at hm
      obtain ⟨m3, rfl⟩ : ∃ m3, m2 = m3 + 1 := by
        cases m2 with
        | zero => simp [conv_run] at hm
        | succ m3 => exact ⟨m3, rfl⟩
      apply hsub
      simp only [conv_visited, hstep1, hstep2, List.mem_cons]
      exact Or.inr (Or.inr (Or.inl trivial))
    · obtain ⟨m, hm, _⟩ := conv_visited_subrun to_cs from_cs mem from_length to_length fuel
        Label.loop_head conv_init final hrun _ hvis
      simp only at hm
      obtain ⟨m1, rfl⟩ : ∃ m1, m = m1 + 1 := by
        cases m with
        | zero => simp [conv_run] at hm
        | succ m1 => exact ⟨m1, rfl⟩
      rw [conv_run_succ, hstep1] at hm
      simp only at hm
      obtain ⟨m2, rfl⟩ : ∃ m2, m1 = m2 + 1 := by
        cases m1 with
        | zero => simp [conv_run] at hm
        | succ m2 => exact ⟨m2, rfl⟩
      rw [conv_run_succ, hstep2] at hm
      simp only at hm
      exact conv_run_stores_grow to_cs from_cs mem from_length to_length m2 _ _ _ hm

/-- Witness of C4: the UTF-8 source `FF FF`, destination the 7-bit charset
with four bytes of room and `*errors = 0`: the call returns with `*errors = 2`
and `?`, `?` stored at offsets 0 and 1. -/
theorem copy_and_convert_illegal_sequence_witness :
    ∃ r, copy_and_convert 15 4 ex_ascii (memOf [255, 255]) 2 ex_utf8 0 = some r ∧
      r.errors = 2 ∧ ∃ tail, r.stores = [(0, 63)] ++ tail :=
  (copy_and_convert_illegal_sequence ex_ascii ex_utf8 (memOf [255, 255]) 2 4 0 15
    ex_ascii_respects_end (by decide)).imp
    (fun _ h => ⟨h.1, h.2.1.trans (by decide),
      (h.2.2 conv_init (List.mem_cons_self _ _) (by decide) (by decide)).2.2.2⟩)

end StringUtil
